import Mathlib

/-!
# The stdio driver of the s3g library (`src/shared/s3g_stdio.c`)

A shallow embedding of the driver: the operating system is an explicit `World`
value threaded through every call.  The world holds `errno`, the byte memory
the caller's buffers live in, the heap of driver states, the input channel
with the outcome planned for each coming `read(2)` attempt, the output channel
with the outcome planned for each coming `write(2)` attempt, and a log of the
system and allocator calls made so far.

Loops that the C code runs without a bound (`for (;;)`, `while (nbytes)`) take
a fuel argument and return `none` when it runs out.
-/

namespace GPX

/-! ## errno values (Linux numbering) and the error classifiers -/

def EINTR : Int := 4
def EIO : Int := 5
def EBADF : Int := 9
def EAGAIN : Int := 11
def EWOULDBLOCK : Int := 11
def ENOMEM : Int := 12
def EINVAL : Int := 22
def ENOSR : Int := 63
def ENOBUFS : Int := 105

/-- The macro `FD_TEMPORARY_ERR()` (non-Windows branch), as a function of the
current value of `errno`. -/
def FD_TEMPORARY_ERR (errno : Int) : Bool :=
  errno == EINTR || errno == ENOMEM || errno == ENOBUFS || errno == ENOSR

/-- The macro `FD_WOULDBLOCK_ERR()` (non-Windows branch). -/
def FD_WOULDBLOCK_ERR (errno : Int) : Bool :=
  errno == EWOULDBLOCK || errno == EAGAIN

/-! ## Machine integers -/

/-- Number of values of a `size_t` (64-bit). -/
def SIZE : Nat := 2 ^ 64

/-- The C statement `a -= n` for `size_t a` and `ssize_t n`: subtraction modulo
`SIZE` (a negative `n` makes `a` grow). -/
def size_sub (a : Nat) (n : Int) : Nat := (((a : Int) - n) % (SIZE : Int)).toNat

/-- The C statement `a += n` for `size_t a` and `ssize_t n`. -/
def size_add (a : Nat) (n : Int) : Nat := (((a : Int) + n) % (SIZE : Int)).toNat

/-- The conversion `(size_t)n` of a signed value. -/
def size_of_int (n : Int) : Nat := (n % (SIZE : Int)).toNat

/-- The conversion of a `size_t` value to `ssize_t`, as happens to the operand
of `return` in a function returning `ssize_t`: values from `2 ^ 63` up wrap to
the negatives. -/
def ssize_of_size (n : Nat) : Int := if n < 2 ^ 63 then (n : Int) else (n : Int) - (SIZE : Int)

/-! ## Driver state, world, primitives -/

/-- The driver's private context `s3g_rw_stdio_ctx_t`. -/
structure s3g_rw_stdio_ctx_t where
  fd : Int
  nread : Nat
  nwritten : Nat
  deriving DecidableEq, Repr

/-- Planned outcome of one attempt of `read(2)` or `write(2)`. -/
inductive Attempt where
  /-- the call returns -1 and sets `errno` to `e` -/
  | fail (e : Int)
  /-- the call transfers up to `c` bytes (never more than requested, and for a
  read never more than the channel still holds) and leaves `errno` alone -/
  | xfer (c : Nat)
  deriving DecidableEq, Repr

/-- Calls made to the operating system and to the allocator. -/
inductive Event where
  | read (fd : Int) (buf : Int) (nbytes : Nat)
  | write (fd : Int) (buf : Int) (nbytes : Nat)
  | close (fd : Int)
  | sysopen (fname : String) (oflag : Nat) (mode : Int)
  | calloc (p : Nat)
  | free (p : Nat)
  deriving DecidableEq, Repr

/-- Everything outside the driver's local variables. Addresses of bytes are
integers, addresses of driver states are naturals; address 0 is `NULL`. -/
structure World where
  errno : Int
  /-- byte memory -/
  mem : Int → Nat
  /-- driver states by address -/
  heap : Nat → s3g_rw_stdio_ctx_t
  /-- highest driver-state address handed out so far -/
  brk : Nat
  /-- whether the next `calloc` fails -/
  oom : Bool
  /-- bytes of the input channel not yet consumed -/
  input : List Nat
  /-- outcomes of the coming `read` attempts; when the plan is used up an
  attempt delivers as much as requested -/
  rplan : List Attempt
  /-- bytes received by the output channel so far -/
  output : List Nat
  /-- outcomes of the coming `write` attempts; when the plan is used up an
  attempt accepts as much as requested -/
  wplan : List Attempt
  /-- outcomes of the coming `close` calls: 0 is success, another value is the
  `errno` of a failure; when used up `close` succeeds -/
  cplan : List Int
  /-- descriptor the next `open` returns; negative means `open` fails -/
  open_fd : Int
  /-- the `errno` of a failing `open` -/
  open_errno : Int
  /-- calls made so far, oldest first -/
  log : List Event

/-- Store the bytes `bs` at address `buf` and following. -/
def store (mem : Int → Nat) (buf : Int) (bs : List Nat) : Int → Nat :=
  fun a => if buf ≤ a ∧ a < buf + bs.length then bs.getD (a - buf).toNat 0 else mem a

/-- The `n` bytes at address `buf` and following. -/
def load (mem : Int → Nat) (buf : Int) (n : Nat) : List Nat :=
  (List.range n).map (fun (i : Nat) => mem (buf + (i : Int)))

/-- The system call `read(fd, buf, nbytes)`: the return value and the world after. -/
def sys_read (w : World) (fd : Int) (buf : Int) (nbytes : Nat) : Int × World :=
  match w.rplan.headD (Attempt.xfer nbytes) with
  | Attempt.fail e =>
      (-1, { w with errno := e, rplan := w.rplan.tail,
                    log := w.log ++ [Event.read fd buf nbytes] })
  | Attempt.xfer c =>
      let k := min (min c nbytes) w.input.length
      ((k : Int), { w with mem := store w.mem buf (w.input.take k),
                           input := w.input.drop k, rplan := w.rplan.tail,
                           log := w.log ++ [Event.read fd buf nbytes] })

/-- The system call `write(fd, buf, nbytes)`. -/
def sys_write (w : World) (fd : Int) (buf : Int) (nbytes : Nat) : Int × World :=
  match w.wplan.headD (Attempt.xfer nbytes) with
  | Attempt.fail e =>
      (-1, { w with errno := e, wplan := w.wplan.tail,
                    log := w.log ++ [Event.write fd buf nbytes] })
  | Attempt.xfer c =>
      let k := min c nbytes
      ((k : Int), { w with output := w.output ++ load w.mem buf k, wplan := w.wplan.tail,
                           log := w.log ++ [Event.write fd buf nbytes] })

/-- The system call `close(fd)`. -/
def sys_close (w : World) (fd : Int) : Int × World :=
  let e := w.cplan.headD 0
  if e = 0 then
    (0, { w with cplan := w.cplan.tail, log := w.log ++ [Event.close fd] })
  else
    (-1, { w with errno := e, cplan := w.cplan.tail, log := w.log ++ [Event.close fd] })

/-- The library call `free(p)`: the release is recorded in the log. The model
keeps no account of which states are live, so it says nothing true about a
call made on a state after its release (in C a use after free, undefined);
nothing below evaluates such a call. -/
def sys_free (w : World) (p : Nat) : World :=
  { w with log := w.log ++ [Event.free p] }

/-! ## stdio_read_retry -/

/-- The loop `for (;;)` of `stdio_read_retry`, with the locals `buf`, `nbytes`
and `nread` as arguments. -/
def stdio_read_retry_loop : Nat → World → Int → Int → Nat → Int → Option (Int × World)
  | 0, _, _, _, _, _ => none
  | fuel + 1, w, fd, buf, nbytes, nread =>
    let r := sys_read w fd buf nbytes
    let n := r.1
    let w1 := r.2
    if n ≤ 0 ∧ FD_TEMPORARY_ERR w1.errno = true then
      stdio_read_retry_loop fuel w1 fd buf nbytes nread
    else if n = 0 then
      some (nread, w1)
    else if size_sub nbytes n = 0 then
      some (nread + n, w1)
    else
      stdio_read_retry_loop fuel w1 fd (buf + n) (size_sub nbytes n) (nread + n)

/-- The function `stdio_read_retry(fd, buf, nbytes)`. -/
def stdio_read_retry (fuel : Nat) (w : World) (fd : Int) (buf : Int) (nbytes : Nat) :
    Option (Int × World) :=
  if fd < 0 then some (-1, { w with errno := EBADF })
  else stdio_read_retry_loop fuel w fd buf nbytes 0

/-! ## stdio_read -/

/-- Add `n` to the field `nread` of the driver state at address `ctx`
(`myctx->nread += n`). -/
def bump_nread (w : World) (ctx : Nat) (n : Int) : World :=
  let st := w.heap ctx
  { w with heap := Function.update w.heap ctx { st with nread := size_add st.nread n } }

/-- Add `n` to the field `nwritten` of the driver state at address `ctx`
(`myctx->nwritten += nw`). -/
def bump_nwritten (w : World) (ctx : Nat) (n : Int) : World :=
  let st := w.heap ctx
  { w with heap := Function.update w.heap ctx { st with nwritten := size_add st.nwritten n } }

/-- The loop `while (nbytes != 0)` of `stdio_read` together with the
`return(0)` that follows it; `tmpbuf` is the address of the local scratch
array of 1024 bytes. -/
def stdio_read_drain : Nat → World → Nat → Int → Nat → Option (Int × World)
  | 0, _, _, _, _ => none
  | fuel + 1, w, ctx, tmpbuf, nbytes =>
    if nbytes = 0 then some (0, w)
    else
      let nread := if 1024 < nbytes then 1024 else nbytes
      match stdio_read_retry fuel w (w.heap ctx).fd tmpbuf nread with
      | none => none
      | some (n, w1) =>
        if n ≤ 0 then some (n, w1)
        else stdio_read_drain fuel (bump_nread w1 ctx n) ctx tmpbuf (size_sub nbytes n)

/-- The function `stdio_read(ctx, buf, maxbuf, nbytes)`; `ctx = 0` and
`buf = 0` are the null pointers, `tmpbuf` is where the local scratch array
lives. -/
def stdio_read (fuel : Nat) (w : World) (ctx : Nat) (buf : Int) (maxbuf nbytes : Nat)
    (tmpbuf : Int) : Option (Int × World) :=
  if ctx = 0 then some (-1, { w with errno := EINVAL })
  else if (w.heap ctx).fd < 0 then
    some (ssize_of_size (size_of_int (-1)), { w with errno := EBADF })
  else if nbytes = 0 then some (0, w)
  else
    let maxbuf := if buf = 0 then 0 else maxbuf
    if nbytes ≤ maxbuf then stdio_read_retry fuel w (w.heap ctx).fd buf nbytes
    else
      match stdio_read_retry fuel w (w.heap ctx).fd buf maxbuf with
      | none => none
      | some (n, w1) =>
        if n ≤ 0 then some (n, w1)
        else stdio_read_drain fuel w1 ctx tmpbuf (size_sub nbytes n)

/-! ## stdio_write -/

/-- The loop `while (nbytes)` of `stdio_write` together with the
`return(nwritten)` that follows it. -/
def stdio_write_loop : Nat → World → Nat → Int → Nat → Int → Option (Int × World)
  | 0, _, _, _, _, _ => none
  | fuel + 1, w, ctx, buf, nbytes, nwritten =>
    if nbytes = 0 then some (nwritten, w)
    else
      let r := sys_write w (w.heap ctx).fd buf nbytes
      let nw := r.1
      let w1 := r.2
      if nw ≤ 0 then
        if FD_WOULDBLOCK_ERR w1.errno = true then
          stdio_write_loop fuel w1 ctx buf nbytes nwritten
        else some (-1, w1)
      else
        stdio_write_loop fuel (bump_nwritten w1 ctx nw) ctx (buf + nw) (size_sub nbytes nw)
          (nwritten + nw)

/-- The function `stdio_write(ctx, buf, nbytes)`. -/
def stdio_write (fuel : Nat) (w : World) (ctx : Nat) (buf : Int) (nbytes : Nat) :
    Option (Int × World) :=
  if ctx = 0 ∨ buf = 0 then some (-1, { w with errno := EINVAL })
  else if (w.heap ctx).fd < 0 then
    some (ssize_of_size (size_of_int (-1)), { w with errno := EBADF })
  else if nbytes = 0 then some (0, w)
  else stdio_write_loop fuel w ctx buf nbytes 0

/-! ## stdio_close -/

/-- The function `stdio_close(ctx)`. -/
def stdio_close (w : World) (ctx : Nat) : Int × World :=
  if ctx = 0 then (-1, { w with errno := EINVAL })
  else
    let fd := (w.heap ctx).fd
    let w1 := sys_free w ctx
    if fd < 0 then (-1, { w1 with errno := EBADF })
    else sys_close w1 fd

/-! ## s3g_stdio_open -/

/-- The procedures a context slot can point at. -/
inductive Proc where
  | null
  | stdio_close
  | stdio_read
  | stdio_write
  deriving DecidableEq, Repr

/-- Modelled from the spec: the declaration of the transport context
(`s3g_context_t` as the driver sees it, from a private header that is not
among the sources). It has the five slots `s3g_stdio_open` assigns: the close
procedure, the read capability (procedure and driver state) and the primary
write capability (procedure and driver state). -/
structure s3g_context_t where
  close : Proc
  read : Proc
  r_ctx : Nat
  write : Proc
  w_ctx : Nat
  deriving DecidableEq, Repr

def O_RDONLY : Nat := 0
def O_WRONLY : Nat := 1
def O_CREAT : Nat := 64

/-- The values `fileno(stdin)` and `fileno(stdout)`. -/
def fileno_stdin : Int := 0
def fileno_stdout : Int := 1

/-- The library call `calloc(1, sizeof(s3g_rw_stdio_ctx_t))`: a null result
(with `errno = ENOMEM`) when memory is out, else a zero-filled driver state at
an address not handed out before. -/
def sys_calloc (w : World) : Nat × World :=
  if w.oom then (0, { w with errno := ENOMEM })
  else
    (w.brk + 1, { w with heap := Function.update w.heap (w.brk + 1) ⟨0, 0, 0⟩,
                         brk := w.brk + 1, log := w.log ++ [Event.calloc (w.brk + 1)] })

/-- The system call `open(fname, oflag, mode)`. -/
def sys_open (w : World) (fname : String) (oflag : Nat) (mode : Int) : Int × World :=
  if w.open_fd < 0 then
    (-1, { w with errno := w.open_errno, log := w.log ++ [Event.sysopen fname oflag mode] })
  else
    (w.open_fd, { w with log := w.log ++ [Event.sysopen fname oflag mode] })

/-- The assignment `p->fd = fd` for the driver state at address `p`. -/
def set_fd (w : World) (p : Nat) (fd : Int) : World :=
  let st := w.heap p
  { w with heap := Function.update w.heap p { st with fd := fd } }

/-- The function `s3g_stdio_open(ctx, src, create_file, mode)`; a null `ctx`
or `src` is `none`. The result is the return value, the world after, and the
context as the call leaves it. The messages printed on `stderr` are left out. -/
def s3g_stdio_open (w : World) (ctx : Option s3g_context_t) (src : Option String)
    (create_file : Int) (mode : Int) : Int × World × Option s3g_context_t :=
  match ctx with
  | none => (-1, { w with errno := EINVAL }, none)
  | some c =>
    let a := sys_calloc w
    let tmp := a.1
    let w1 := a.2
    if tmp = 0 then (-1, w1, some c)
    else
      let finish (w2 : World) : Int × World × Option s3g_context_t :=
        (0, w2, some { c with close := Proc.stdio_close,
                               read := Proc.stdio_read,
                               r_ctx := tmp,
                               write := if create_file ≠ 0 then Proc.stdio_write else Proc.null,
                               w_ctx := if create_file ≠ 0 then tmp else 0 })
      match src with
      | none =>
        finish (set_fd w1 tmp (if create_file ≠ 0 then fileno_stdout else fileno_stdin))
      | some fname =>
        let oflag := if create_file ≠ 0 then O_CREAT ||| O_WRONLY else O_RDONLY
        let o := sys_open w1 fname oflag mode
        if o.1 < 0 then (-1, sys_free o.2 tmp, some c)
        else
          finish (set_fd o.2 tmp o.1)

/-! ## Classes of planned attempts -/

/-- An attempt that transfers at least one byte. -/
def Attempt.positive : Attempt → Bool
  | Attempt.fail _ => false
  | Attempt.xfer c => decide (0 < c)

/-- An attempt that transfers at least one byte or fails with a retry-class
error. -/
def Attempt.positive_or_retry : Attempt → Bool
  | Attempt.fail e => FD_TEMPORARY_ERR e
  | Attempt.xfer c => decide (0 < c)

/-- An attempt that transfers at least one byte or fails with a would-block
error. -/
def Attempt.positive_or_wouldblock : Attempt → Bool
  | Attempt.fail e => FD_WOULDBLOCK_ERR e
  | Attempt.xfer c => decide (0 < c)

/-- The number of bytes a planned attempt transfers at most. -/
def Attempt.count : Attempt → Nat
  | Attempt.fail _ => 0
  | Attempt.xfer c => c

/-! ## Concrete worlds on which the code is evaluated -/

/-- A world with eight bytes `10 .. 17` waiting on the input channel, ten bytes
`50 .. 59` in memory at addresses `200 .. 209`, one open driver state at
address 1 (descriptor 3), nothing planned and `errno = 0`. -/
def world0 : World where
  errno := 0
  mem := fun a => if 200 ≤ a ∧ a < 210 then (a - 200).toNat + 50 else 0
  heap := fun p => if p = 1 then ⟨3, 0, 0⟩ else ⟨-1, 0, 0⟩
  brk := 1
  oom := false
  input := [10, 11, 12, 13, 14, 15, 16, 17]
  rplan := []
  output := []
  wplan := []
  cplan := []
  open_fd := 4
  open_errno := 0
  log := []

/-- The world `world0` where the first `read` attempt fails with `EIO`. -/
def world_read_eio : World := { world0 with rplan := [Attempt.fail EIO] }

/-- The world `world0` where the input arrives one byte per attempt. -/
def world_bytewise : World :=
  { world0 with rplan := [Attempt.xfer 1, Attempt.xfer 1, Attempt.xfer 1, Attempt.xfer 1] }

/-- A world at end of file (no input left) in which `errno` still holds
`EINTR` from some earlier interrupted call. -/
def world_eof_stale : World := { world0 with errno := EINTR, input := [] }

/-- The world `world0` where the first `write` attempt fails with `EINTR` and
the second would accept everything. -/
def world_write_eintr : World :=
  { world0 with wplan := [Attempt.fail EINTR, Attempt.xfer 3] }

/-- The world `world0` where `write` accepts one byte, then would block, then
accepts two bytes. -/
def world_write_pieces : World :=
  { world0 with wplan := [Attempt.xfer 1, Attempt.fail EAGAIN, Attempt.xfer 2] }

/-- The world `world0` where the next `close` fails with `EIO`. -/
def world_close_eio : World := { world0 with cplan := [ EIO ] }

/-- A context with every slot empty. -/
def ctx_empty : s3g_context_t := ⟨Proc.null, Proc.null, 0, Proc.null, 0⟩

/-- The observable part of the result of a read: the return value, the calls
logged, and the input still waiting (`none` when the fuel ran out). -/
def observe (r : Option (Int × World)) : Option (Int × List Event × List Nat) :=
  r.map (fun x => (x.1, x.2.log, x.2.input))

/-- The observable part of the result of a write: the return value, the calls
logged, and the bytes the output channel received. -/
def observe_out (r : Option (Int × World)) : Option (Int × List Event × List Nat) :=
  r.map (fun x => (x.1, x.2.log, x.2.output))

/-! ## The requests a retried read is to make -/

/-- The requests of `stdio_read_retry` as the description of the retry rule
words them, for comparison with the log the code leaves: while bytes are
missing, each attempt asks for exactly the bytes still missing at the current
buffer position; an attempt that fails moves neither the position nor the
count of missing bytes; an attempt that delivers `c` bytes moves both by
`c`. -/
def spec_read_requests (fd : Int) : Int → Nat → List Attempt → List Event
  | _, _, [] => []
  | buf, missing, Attempt.fail _ :: P =>
    if missing = 0 then []
    else Event.read fd buf missing :: spec_read_requests fd buf missing P
  | buf, missing, Attempt.xfer c :: P =>
    if missing = 0 then []
    else Event.read fd buf missing :: spec_read_requests fd (buf + (c : Int)) (missing - c) P

/-- The world `world0` where the first `read` attempt is interrupted
(`EINTR`), the second delivers 2 bytes, and the channel holds only those 2
bytes: every later attempt reports end of file. `errno` is 0 at the start. -/
def world_eintr_then_eof : World :=
  { world0 with input := [10, 11], rplan := [Attempt.fail EINTR, Attempt.xfer 2] }

/-- The world `world0` where the read attempts are: interrupted (`EINTR`),
1 byte, out of memory (`ENOMEM`), out of buffers (`ENOBUFS`), 2 bytes, out of
stream resources (`ENOSR`), 1 byte. -/
def world_read_retries : World :=
  { world0 with rplan := [Attempt.fail EINTR, Attempt.xfer 1, Attempt.fail ENOMEM,
                           Attempt.fail ENOBUFS, Attempt.xfer 2, Attempt.fail ENOSR,
                           Attempt.xfer 1] }

/-! ## Theorems -/

theorem size_sub_nat (a k : Nat) (hk : k ≤ a) (ha : a < SIZE) :
    size_sub a (k : Int) = a - k := by
  unfold size_sub
  have h1 : ((a : Int) - (k : Int)) = ((a - k : Nat) : Int) := by omega
  rw [h1]
  have h2 : (((a - k : Nat) : Int) % (SIZE : Int)) = ((a - k : Nat) : Int) := by
    apply Int.emod_eq_of_lt
    · omega
    · have : a - k < SIZE := by omega
      exact_mod_cast this
  rw [h2]
  simp

theorem size_add_nat (a k : Nat) : size_add a (k : Int) = (a + k) % SIZE := by
  unfold size_add
  have h1 : ((a : Int) + (k : Int)) % (SIZE : Int) = (((a + k) % SIZE : Nat) : Int) := by
    push_cast
    rfl
  simp only [h1, Int.toNat_ofNat]

theorem store_apply_in (mem : Int → Nat) (buf : Int) (bs : List Nat) (i : Nat)
    (hi : i < bs.length) : store mem buf bs (buf + i) = bs.getD i 0 := by
  unfold store
  have h : buf ≤ buf + (i : Int) ∧ buf + (i : Int) < buf + (bs.length : Int) := by
    constructor <;> omega
  rw [if_pos h]
  congr 1
  omega

theorem store_apply_out (mem : Int → Nat) (buf : Int) (bs : List Nat) (a : Int)
    (ha : a < buf ∨ buf + bs.length ≤ a) : store mem buf bs a = mem a := by
  unfold store
  have h : ¬ (buf ≤ a ∧ a < buf + (bs.length : Int)) := by omega
  rw [if_neg h]

theorem store_take_step (mem : Int → Nat) (buf : Int) (D : List Nat) (k m : Nat)
    (hk : k ≤ D.length) :
    store (store mem buf (D.take k)) (buf + k) ((D.drop k).take m) =
      store mem buf (D.take (k + m)) := by
  funext a
  unfold store
  simp only [List.length_take, List.length_drop]
  by_cases h1 : buf + (k : Int) ≤ a ∧ a < buf + (k : Int) + ((min m (D.length - k) : Nat) : Int)
  · rw [if_pos h1]
    have h2 : buf ≤ a ∧ a < buf + ((min (k + m) D.length : Nat) : Int) := by omega
    rw [if_pos h2]
    obtain ⟨j, hj⟩ : ∃ j : Nat, a = buf + k + j := ⟨(a - (buf + k)).toNat, by omega⟩
    subst hj
    have e1 : (buf + (k : Int) + (j : Int) - (buf + (k : Int))).toNat = j := by omega
    have e2 : (buf + (k : Int) + (j : Int) - buf).toNat = k + j := by omega
    rw [e1, e2]
    have hj1 : j < m := by omega
    have hj2 : k + j < D.length := by omega
    simp [List.getD_eq_getElem?_getD, List.getElem?_take, hj1, List.getElem?_drop, hj2]
  · rw [if_neg h1]
    by_cases h3 : buf ≤ a ∧ a < buf + ((min k D.length : Nat) : Int)
    · rw [if_pos h3]
      have h2 : buf ≤ a ∧ a < buf + ((min (k + m) D.length : Nat) : Int) := by omega
      rw [if_pos h2]
      obtain ⟨j, hj⟩ : ∃ j : Nat, a = buf + j := ⟨(a - buf).toNat, by omega⟩
      subst hj
      have e2 : (buf + (j : Int) - buf).toNat = j := by omega
      rw [e2]
      have hj1 : j < k := by omega
      have hj3 : j < k + m := by omega
      simp [List.getD_eq_getElem?_getD, List.getElem?_take, hj1, hj3]
    · rw [if_neg h3]
      have h2 : ¬ (buf ≤ a ∧ a < buf + ((min (k + m) D.length : Nat) : Int)) := by omega
      rw [if_neg h2]

theorem Attempt.positive_imp (a : Attempt) (h : a.positive = true) :
    a.positive_or_retry = true := by
  cases a with
  | fail e => simp [Attempt.positive] at h
  | xfer c => simpa [Attempt.positive, Attempt.positive_or_retry] using h

/-- One turn of the loop of `stdio_read_retry` when the attempt fails with a
retry-class error: the same request is made again. -/
theorem read_retry_loop_fail_retry (fuel : Nat) (w : World) (fd buf : Int) (nbytes : Nat)
    (nread : Int) (e : Int) (rest : List Attempt) (hp : w.rplan = Attempt.fail e :: rest)
    (he : FD_TEMPORARY_ERR e = true) :
    stdio_read_retry_loop (fuel + 1) w fd buf nbytes nread =
      stdio_read_retry_loop fuel
        { w with errno := e, rplan := rest, log := w.log ++ [Event.read fd buf nbytes] }
        fd buf nbytes nread := by
  simp [stdio_read_retry_loop, sys_read, hp, he]

/-- One turn of the loop of `stdio_read_retry` when the attempt transfers
`k > 0` bytes. -/
theorem read_retry_loop_xfer (fuel : Nat) (w : World) (fd buf : Int) (nbytes : Nat)
    (nread : Int) (c : Nat) (hp : w.rplan.headD (Attempt.xfer nbytes) = Attempt.xfer c)
    (hk : 0 < min (min c nbytes) w.input.length) (hn : nbytes < SIZE) :
    stdio_read_retry_loop (fuel + 1) w fd buf nbytes nread =
      if min (min c nbytes) w.input.length = nbytes then
        some (nread + nbytes,
          { w with mem := store w.mem buf (w.input.take nbytes),
                   input := w.input.drop nbytes, rplan := w.rplan.tail,
                   log := w.log ++ [Event.read fd buf nbytes] })
      else
        stdio_read_retry_loop fuel
          { w with mem := store w.mem buf (w.input.take (min (min c nbytes) w.input.length)),
                   input := w.input.drop (min (min c nbytes) w.input.length),
                   rplan := w.rplan.tail,
                   log := w.log ++ [Event.read fd buf nbytes] }
          fd (buf + (min (min c nbytes) w.input.length : Nat))
          (nbytes - min (min c nbytes) w.input.length)
          (nread + (min (min c nbytes) w.input.length : Nat)) := by
  generalize hkd : min (min c nbytes) w.input.length = k at hk ⊢
  have hkn : k ≤ nbytes := by omega
  have hsub : size_sub nbytes (k : Int) = nbytes - k := size_sub_nat nbytes k hkn hn
  have h1 : ¬ ((k : Int) ≤ 0) := by omega
  have h2 : ¬ ((k : Int) = 0) := by omega
  simp only [stdio_read_retry_loop, sys_read, hp, hkd, hsub]
  rw [if_neg (fun h => h1 h.1), if_neg h2]
  by_cases h3 : k = nbytes
  · subst h3
    simp
  · have h4 : nbytes - k ≠ 0 := by omega
    rw [if_neg h4, if_neg h3]

/-- The loop of `stdio_read_retry` over a channel that holds at least `nbytes`
bytes, when every planned attempt delivers something or fails with a
retry-class error: it returns after at most one turn per planned attempt plus
one, adds `nbytes` to `nread`, consumes exactly `nbytes` bytes, stores them at
`buf`, touches nothing else, and every request it makes ends at
`buf + nbytes`. -/
theorem read_retry_loop_full (P : List Attempt) :
    ∀ (fuel : Nat) (w : World) (fd buf : Int) (nbytes : Nat) (nread : Int),
      w.rplan = P → (∀ a ∈ P, a.positive_or_retry = true) →
      0 < nbytes → nbytes < SIZE → nbytes ≤ w.input.length → P.length < fuel →
      ∃ w', stdio_read_retry_loop fuel w fd buf nbytes nread = some (nread + nbytes, w') ∧
        w'.input = w.input.drop nbytes ∧
        w'.mem = store w.mem buf (w.input.take nbytes) ∧
        w'.heap = w.heap ∧ w'.output = w.output ∧
        (∃ j, w'.rplan = P.drop j) ∧
        (∃ evs, w'.log = w.log ++ evs ∧
          ∀ ev ∈ evs, ∃ b n, ev = Event.read fd b n ∧ buf ≤ b ∧ b + n = buf + nbytes) := by
  induction P with
  | nil =>
    intro fuel w fd buf nbytes nread hp _ hpos hn hlen hfuel
    obtain ⟨f, rfl⟩ : ∃ f, fuel = f + 1 := ⟨fuel - 1, by simp at hfuel; omega⟩
    have hhd : w.rplan.headD (Attempt.xfer nbytes) = Attempt.xfer nbytes := by simp [hp]
    have hk : min (min nbytes nbytes) w.input.length = nbytes := by simp [hlen]
    rw [read_retry_loop_xfer f w fd buf nbytes nread nbytes hhd (by omega) hn, if_pos hk]
    refine ⟨_, rfl, rfl, rfl, rfl, rfl, ⟨0, by simp [hp]⟩, ⟨[Event.read fd buf nbytes], rfl, ?_⟩⟩
    intro ev hev
    simp only [List.mem_singleton] at hev
    exact ⟨buf, nbytes, hev, le_refl _, rfl⟩
  | cons a rest ih =>
    intro fuel w fd buf nbytes nread hp hgood hpos hn hlen hfuel
    obtain ⟨f, rfl⟩ : ∃ f, fuel = f + 1 := ⟨fuel - 1, by simp at hfuel; omega⟩
    have hf : rest.length < f := by simp at hfuel; omega
    have hrest : ∀ a ∈ rest, a.positive_or_retry = true :=
      fun x hx => hgood x (List.mem_cons_of_mem _ hx)
    have ha := hgood a (List.mem_cons_self _ _)
    cases a with
    | fail e =>
      have he : FD_TEMPORARY_ERR e = true := by simpa [Attempt.positive_or_retry] using ha
      rw [read_retry_loop_fail_retry f w fd buf nbytes nread e rest hp he]
      obtain ⟨w', hres, hin, hmem, hheap, hout, ⟨j, hj⟩, ⟨evs, hlog, hevs⟩⟩ :=
        ih f { w with errno := e, rplan := rest, log := w.log ++ [Event.read fd buf nbytes] }
          fd buf nbytes nread rfl hrest hpos hn hlen hf
      refine ⟨w', hres, hin, hmem, hheap, hout, ⟨j + 1, by simpa using hj⟩,
        ⟨Event.read fd buf nbytes :: evs, by simpa using hlog, ?_⟩⟩
      intro ev hev
      rcases List.mem_cons.mp hev with h | h
      · exact ⟨buf, nbytes, h, le_refl _, rfl⟩
      · exact hevs ev h
    | xfer c =>
      have hc : 0 < c := by simpa [Attempt.positive_or_retry] using ha
      have hhd : w.rplan.headD (Attempt.xfer nbytes) = Attempt.xfer c := by simp [hp]
      have hk0 : 0 < min (min c nbytes) w.input.length := by
        simp only [lt_min_iff]; omega
      rw [read_retry_loop_xfer f w fd buf nbytes nread c hhd hk0 hn]
      generalize hkd : min (min c nbytes) w.input.length = k at hk0 ⊢
      have hkn : k ≤ nbytes := by omega
      by_cases h3 : k = nbytes
      · rw [if_pos h3]
        refine ⟨_, rfl, rfl, rfl, rfl, rfl, ⟨1, by simp [hp]⟩,
          ⟨[Event.read fd buf nbytes], rfl, ?_⟩⟩
        intro ev hev
        simp only [List.mem_singleton] at hev
        exact ⟨buf, nbytes, hev, le_refl _, rfl⟩
      · rw [if_neg h3]
        obtain ⟨w', hres, hin, hmem, hheap, hout, ⟨j, hj⟩, ⟨evs, hlog, hevs⟩⟩ :=
          ih f { w with mem := store w.mem buf (w.input.take k), input := w.input.drop k,
                        rplan := w.rplan.tail, log := w.log ++ [Event.read fd buf nbytes] }
            fd (buf + (k : Nat)) (nbytes - k) (nread + (k : Nat)) (by simp [hp]) hrest
            (by omega) (by omega) (by simp only [List.length_drop]; omega) hf
        refine ⟨w', ?_, ?_, ?_, hheap, hout, ⟨j + 1, by simpa using hj⟩,
          ⟨Event.read fd buf nbytes :: evs, by simpa using hlog, ?_⟩⟩
        · rw [hres]
          congr 2
          omega
        · rw [hin]
          simp only [List.drop_drop]
          congr 1
          omega
        · rw [hmem]
          simp only
          rw [store_take_step w.mem buf w.input k (nbytes - k) (by omega)]
          have hsum : k + (nbytes - k) = nbytes := by omega
          rw [hsum]
        · intro ev hev
          rcases List.mem_cons.mp hev with h | h
          · exact ⟨buf, nbytes, h, le_refl _, rfl⟩
          · obtain ⟨b, n, h1, h2, h3⟩ := hevs ev h
            exact ⟨b, n, h1, by omega, by omega⟩

/-! ## C1: a read attempt that fails with a permanent error -/

/-- One turn of the loop of `stdio_read_retry` when the attempt fails with an
error that is not retry-class: the function does not return; `nread` drops by
one, `nbytes` grows by one, `buf` moves back by one, and the loop goes on
(unless `nbytes` wrapped to 0). -/
theorem read_retry_loop_fail_permanent (fuel : Nat) (w : World) (fd buf : Int) (nbytes : Nat)
    (nread : Int) (e : Int) (rest : List Attempt) (hp : w.rplan = Attempt.fail e :: rest)
    (he : FD_TEMPORARY_ERR e = false) :
    stdio_read_retry_loop (fuel + 1) w fd buf nbytes nread =
      if size_sub nbytes (-1) = 0 then
        some (nread + -1,
          { w with errno := e, rplan := rest, log := w.log ++ [Event.read fd buf nbytes] })
      else
        stdio_read_retry_loop fuel
          { w with errno := e, rplan := rest, log := w.log ++ [Event.read fd buf nbytes] }
          fd (buf + -1) (size_sub nbytes (-1)) (nread + -1) := by
  simp [stdio_read_retry_loop, sys_read, hp, he]

/-- C1, evaluated on the code: descriptor 3, a request for 4 bytes at address
100, and a first `read` attempt that fails with `EIO` (not retry-class). The
claim says the call returns -1 at once. The code makes a second attempt, for 5
bytes at address 99, and returns 4 after taking 5 bytes from the channel. -/
theorem stdio_read_retry_permanent_error_goes_on :
    FD_TEMPORARY_ERR EIO = false ∧
    observe (stdio_read_retry 10 world_read_eio 3 100 4) =
      some (4, [Event.read 3 100 4, Event.read 3 99 5], [15, 16, 17]) := by
  constructor
  · decide
  · decide

/-! ## C3: reading into a buffer shorter than the request -/

theorem mem_drop_of_good (P : List Attempt) (j : Nat)
    (h : ∀ a ∈ P, a.positive_or_retry = true) : ∀ a ∈ P.drop j, a.positive_or_retry = true :=
  fun a ha => h a (List.mem_of_mem_drop ha)

/-- The function `stdio_read_retry` on an open descriptor, under the
conditions of `read_retry_loop_full`. -/
theorem read_retry_full (fuel : Nat) (w : World) (fd buf : Int) (nbytes : Nat)
    (hfd : 0 ≤ fd) (hgood : ∀ a ∈ w.rplan, a.positive_or_retry = true)
    (hpos : 0 < nbytes) (hn : nbytes < SIZE) (hlen : nbytes ≤ w.input.length)
    (hfuel : w.rplan.length < fuel) :
    ∃ w', stdio_read_retry fuel w fd buf nbytes = some ((nbytes : Int), w') ∧
      w'.input = w.input.drop nbytes ∧
      w'.mem = store w.mem buf (w.input.take nbytes) ∧
      w'.heap = w.heap ∧ w'.output = w.output ∧
      (∃ j, w'.rplan = w.rplan.drop j) ∧
      (∃ evs, w'.log = w.log ++ evs ∧
        ∀ ev ∈ evs, ∃ b n, ev = Event.read fd b n ∧ buf ≤ b ∧ b + n = buf + nbytes) := by
  unfold stdio_read_retry
  rw [if_neg (by omega)]
  have h := read_retry_loop_full w.rplan fuel w fd buf nbytes 0 rfl hgood hpos hn hlen hfuel
  simpa using h

/-- The draining loop of `stdio_read` over a channel that holds at least
`nbytes` bytes: it returns 0 after consuming exactly `nbytes` bytes, writes
only into the scratch array, and requests at most 1024 bytes at a time. -/
theorem read_drain_full : ∀ (fuel : Nat) (w : World) (ctx : Nat) (tmpbuf : Int) (nbytes : Nat),
    0 ≤ (w.heap ctx).fd → (∀ a ∈ w.rplan, a.positive_or_retry = true) →
    nbytes < SIZE → nbytes ≤ w.input.length → w.rplan.length + nbytes < fuel →
    ∃ w', stdio_read_drain fuel w ctx tmpbuf nbytes = some (0, w') ∧
      w'.input = w.input.drop nbytes ∧
      (∀ a, (a < tmpbuf ∨ tmpbuf + 1024 ≤ a) → w'.mem a = w.mem a) ∧
      (w'.heap ctx).fd = (w.heap ctx).fd ∧ w'.output = w.output ∧
      (∃ evs, w'.log = w.log ++ evs ∧
        ∀ ev ∈ evs, ∃ b n, ev = Event.read (w.heap ctx).fd b n ∧
          tmpbuf ≤ b ∧ b + n ≤ tmpbuf + 1024 ∧ n ≤ 1024) := by
  intro fuel
  induction fuel with
  | zero => intro w ctx tmpbuf nbytes _ _ _ _ hfuel; omega
  | succ f ih =>
    intro w ctx tmpbuf nbytes hfd hgood hn hlen hfuel
    by_cases h0 : nbytes = 0
    · subst h0
      exact ⟨w, by simp [stdio_read_drain], by simp, fun _ _ => rfl, rfl, rfl, [], by simp,
        by simp⟩
    · generalize hc : (if 1024 < nbytes then 1024 else nbytes) = chunk
      have hc1 : 0 < chunk := by rw [← hc]; split <;> omega
      have hc2 : chunk ≤ nbytes := by rw [← hc]; split <;> omega
      have hc3 : chunk ≤ 1024 := by rw [← hc]; split <;> omega
      obtain ⟨w1, hres, hin, hmem, hheap, hout, ⟨j, hj⟩, ⟨evs, hlog, hevs⟩⟩ :=
        read_retry_full f w (w.heap ctx).fd tmpbuf chunk hfd hgood hc1 (by omega) (by omega)
          (by omega)
      have hsub : size_sub nbytes (chunk : Int) = nbytes - chunk :=
        size_sub_nat nbytes chunk hc2 hn
      have hfd1 : ((bump_nread w1 ctx (chunk : Int)).heap ctx).fd = (w.heap ctx).fd := by
        simp [bump_nread, hheap]
      have hlenj : (w.rplan.drop j).length ≤ w.rplan.length := by
        simp only [List.length_drop]; omega
      obtain ⟨w2, hres2, hin2, hmem2, hheap2, hout2, ⟨evs2, hlog2, hevs2⟩⟩ :=
        ih (bump_nread w1 ctx (chunk : Int)) ctx tmpbuf (nbytes - chunk)
          (by rw [hfd1]; exact hfd)
          (by
            have : (bump_nread w1 ctx (chunk : Int)).rplan = w.rplan.drop j := by
              simpa [bump_nread] using hj
            rw [this]; exact mem_drop_of_good _ _ hgood)
          (by omega)
          (by
            have : (bump_nread w1 ctx (chunk : Int)).input = w.input.drop chunk := by
              simpa [bump_nread] using hin
            rw [this, List.length_drop]; omega)
          (by
            have : (bump_nread w1 ctx (chunk : Int)).rplan = w.rplan.drop j := by
              simpa [bump_nread] using hj
            rw [this]; omega)
      have hnpos : ¬ ((chunk : Int) ≤ 0) := by omega
      refine ⟨w2, ?_, ?_, ?_, ?_, ?_, ⟨evs ++ evs2, ?_, ?_⟩⟩
      · simp only [stdio_read_drain, if_neg h0, hc, hres, if_neg hnpos, hsub]
        exact hres2
      · rw [hin2]
        have : (bump_nread w1 ctx (chunk : Int)).input = w.input.drop chunk := by
          simpa [bump_nread] using hin
        rw [this, List.drop_drop]
        congr 1
        omega
      · intro a ha
        rw [hmem2 a ha]
        have : (bump_nread w1 ctx (chunk : Int)).mem = w1.mem := by simp [bump_nread]
        rw [this, hmem]
        apply store_apply_out
        rcases ha with ha | ha
        · left; exact ha
        · right
          have : ((w.input.take chunk).length : Int) ≤ 1024 := by
            simp only [List.length_take]; omega
          omega
      · rw [hheap2, hfd1]
      · rw [hout2]
        simpa [bump_nread] using hout
      · rw [hlog2]
        have : (bump_nread w1 ctx (chunk : Int)).log = w1.log := by simp [bump_nread]
        rw [this, hlog, List.append_assoc]
      · intro ev hev
        rcases List.mem_append.mp hev with h | h
        · obtain ⟨b, n, h1, h2, h3⟩ := hevs ev h
          have hn0 : (0 : Int) ≤ n := Int.ofNat_nonneg n
          exact ⟨b, n, h1, h2, by omega, by omega⟩
        · obtain ⟨b, n, h1, h2, h3, h4⟩ := hevs2 ev h
          rw [hfd1] at h1
          exact ⟨b, n, h1, h2, h3, h4⟩

/-- C3 (short-channel fidelity): with a valid driver state, a non-null `buf`
and `1 ≤ maxbuf < N`, over a channel that holds at least `N` bytes and whose
attempts all deliver a positive number of bytes, `stdio_read` returns (with
value 0) once the fuel exceeds the number of planned attempts plus `N`; it
consumes exactly `N` bytes, so the next read starts at channel byte `N`; the
first `maxbuf` of them are in `buf[0..maxbuf)`; no byte of memory outside
`buf[0..maxbuf)` and the scratch array changes; and the requests made are
first requests into `buf` that end at `buf + maxbuf`, then requests of at most
1024 bytes into the scratch array. -/
theorem stdio_read_short_channel (fuel : Nat) (w : World) (ctx : Nat) (buf : Int)
    (maxbuf N : Nat) (tmpbuf : Int)
    (hctx : ctx ≠ 0) (hfd : 0 ≤ (w.heap ctx).fd) (hbuf : buf ≠ 0)
    (h1 : 1 ≤ maxbuf) (h2 : maxbuf < N) (hN : N < SIZE)
    (hplan : ∀ a ∈ w.rplan, a.positive = true) (hdata : N ≤ w.input.length)
    (hdisj : buf + maxbuf ≤ tmpbuf ∨ tmpbuf + 1024 ≤ buf)
    (hfuel : w.rplan.length + N < fuel) :
    ∃ w', stdio_read fuel w ctx buf maxbuf N tmpbuf = some (0, w') ∧
      w'.input = w.input.drop N ∧
      (∀ i : Nat, i < maxbuf → w'.mem (buf + i) = w.input.getD i 0) ∧
      (∀ a, (a < buf ∨ buf + maxbuf ≤ a) → (a < tmpbuf ∨ tmpbuf + 1024 ≤ a) →
        w'.mem a = w.mem a) ∧
      (∃ evs1 evs2, w'.log = w.log ++ evs1 ++ evs2 ∧
        (∀ ev ∈ evs1, ∃ b n, ev = Event.read (w.heap ctx).fd b n ∧
          buf ≤ b ∧ b + n = buf + maxbuf) ∧
        (∀ ev ∈ evs2, ∃ b n, ev = Event.read (w.heap ctx).fd b n ∧
          tmpbuf ≤ b ∧ b + n ≤ tmpbuf + 1024 ∧ n ≤ 1024)) := by
  have hgood : ∀ a ∈ w.rplan, a.positive_or_retry = true :=
    fun a ha => Attempt.positive_imp a (hplan a ha)
  obtain ⟨w1, hres, hin, hmem, hheap, hout, ⟨j, hj⟩, ⟨evs, hlog, hevs⟩⟩ :=
    read_retry_full fuel w (w.heap ctx).fd buf maxbuf hfd hgood (by omega) (by omega)
      (by omega) (by omega)
  have hsub : size_sub N (maxbuf : Int) = N - maxbuf := size_sub_nat N maxbuf (by omega) hN
  have hlenj : (w.rplan.drop j).length ≤ w.rplan.length := by
    simp only [List.length_drop]; omega
  obtain ⟨w2, hres2, hin2, hmem2, hfd2, hout2, ⟨evs2, hlog2, hevs2⟩⟩ :=
    read_drain_full fuel w1 ctx tmpbuf (N - maxbuf) (by rw [hheap]; exact hfd)
      (by rw [hj]; exact mem_drop_of_good _ _ hgood) (by omega)
      (by rw [hin, List.length_drop]; omega) (by rw [hj]; omega)
  have hN0 : N ≠ 0 := by omega
  have hle : ¬ N ≤ maxbuf := by omega
  have hnpos : ¬ ((maxbuf : Int) ≤ 0) := by omega
  have hfdlt : ¬ (w.heap ctx).fd < 0 := by omega
  have htake : (w.input.take maxbuf).length = maxbuf := by
    simp only [List.length_take]; omega
  refine ⟨w2, ?_, ?_, ?_, ?_, ⟨evs, evs2, ?_, hevs, ?_⟩⟩
  · simp only [stdio_read, if_neg hctx, if_neg hfdlt, if_neg hN0, if_neg hbuf, if_neg hle, hres,
      if_neg hnpos, hsub]
    exact hres2
  · rw [hin2, hin, List.drop_drop]
    congr 1
    omega
  · intro i hi
    have hout : buf + (i : Int) < tmpbuf ∨ tmpbuf + 1024 ≤ buf + (i : Int) := by omega
    rw [hmem2 _ hout, hmem, store_apply_in _ _ _ _ (by omega)]
    simp [List.getD_eq_getElem?_getD, List.getElem?_take, hi]
  · intro a ha1 ha2
    rw [hmem2 a ha2, hmem]
    apply store_apply_out
    rw [htake]
    exact ha1
  · rw [hlog2, hlog]
  · intro ev hev
    obtain ⟨b, n, e1, e2, e3, e4⟩ := hevs2 ev hev
    rw [hheap] at e1
    exact ⟨b, n, e1, e2, e3, e4⟩

/-- C3 at a concrete input: a request for 6 bytes with room for 3, the first
four bytes arriving one per attempt. -/
theorem stdio_read_short_channel_witness :
    ∃ w', stdio_read 20 world_bytewise 1 100 3 6 5000 = some (0, w') ∧
      w'.input = world_bytewise.input.drop 6 ∧
      (∀ i : Nat, i < 3 → w'.mem (100 + i) = world_bytewise.input.getD i 0) ∧
      (∀ a : Int, (a < 100 ∨ 100 + (3 : Nat) ≤ a) → (a < 5000 ∨ 5000 + 1024 ≤ a) →
        w'.mem a = world_bytewise.mem a) ∧
      (∃ evs1 evs2, w'.log = world_bytewise.log ++ evs1 ++ evs2 ∧
        (∀ ev ∈ evs1, ∃ b n, ev = Event.read (world_bytewise.heap 1).fd b n ∧
          100 ≤ b ∧ b + n = 100 + (3 : Nat)) ∧
        (∀ ev ∈ evs2, ∃ b n, ev = Event.read (world_bytewise.heap 1).fd b n ∧
          5000 ≤ b ∧ b + n ≤ 5000 + 1024 ∧ n ≤ 1024)) :=
  stdio_read_short_channel 20 world_bytewise 1 100 3 6 5000 (by decide) (by decide) (by decide)
    (by decide) (by decide) (by decide) (by decide) (by decide) (by decide) (by decide)

/-! ## C2: the value `stdio_read` returns -/

/-- When the buffer has room for the whole request (`N ≤ maxbuf`, non-null
`buf`), `stdio_read` returns exactly `N` over a channel that holds at least
`N` bytes and delivers a positive number of bytes per attempt. -/
theorem stdio_read_exact_with_room (fuel : Nat) (w : World) (ctx : Nat) (buf : Int)
    (maxbuf N : Nat) (tmpbuf : Int)
    (hctx : ctx ≠ 0) (hfd : 0 ≤ (w.heap ctx).fd) (hbuf : buf ≠ 0)
    (h1 : 0 < N) (h2 : N ≤ maxbuf) (hN : N < SIZE)
    (hplan : ∀ a ∈ w.rplan, a.positive = true) (hdata : N ≤ w.input.length)
    (hfuel : w.rplan.length < fuel) :
    ∃ w', stdio_read fuel w ctx buf maxbuf N tmpbuf = some ((N : Int), w') ∧
      w'.input = w.input.drop N ∧ w'.mem = store w.mem buf (w.input.take N) := by
  have hgood : ∀ a ∈ w.rplan, a.positive_or_retry = true :=
    fun a ha => Attempt.positive_imp a (hplan a ha)
  obtain ⟨w1, hres, hin, hmem, _⟩ :=
    read_retry_full fuel w (w.heap ctx).fd buf N hfd hgood h1 hN hdata hfuel
  have hN0 : N ≠ 0 := by omega
  have hfdlt : ¬ (w.heap ctx).fd < 0 := by omega
  refine ⟨w1, ?_, hin, hmem⟩
  simp only [stdio_read, if_neg hctx, if_neg hfdlt, if_neg hN0, if_neg hbuf, if_pos h2, hres]

/-- C2, evaluated on the code: a valid driver state (descriptor 3), a buffer
with room for 1 byte, a request for `N = 2` bytes, every attempt delivering a
positive number of bytes. The claim says `stdio_read` returns 2. The code reads
both bytes (one into the buffer, one into the scratch array) and returns 0. -/
theorem stdio_read_short_buffer_returns_zero :
    (∀ a ∈ world_bytewise.rplan, a.positive = true) ∧
    observe (stdio_read 20 world_bytewise 1 100 1 2 5000) =
      some (0, [Event.read 3 100 1, Event.read 3 5000 1], [12, 13, 14, 15, 16, 17]) := by
  constructor
  · decide
  · decide

/-! ## C4: reading with no destination -/

/-- C4, evaluated on the code: a valid driver state, a request for `N = 4`
bytes over a channel holding eight, once with `buf = NULL` and once with
`maxbuf = 0`. The claim says four bytes are read and discarded. The code makes
one `read` of zero bytes, takes nothing from the channel and returns 0. -/
theorem stdio_read_no_destination_reads_nothing :
    observe (stdio_read 20 world0 1 0 8 4 5000) =
      some (0, [Event.read 3 0 0], [10, 11, 12, 13, 14, 15, 16, 17]) ∧
    observe (stdio_read 20 world0 1 100 0 4 5000) =
      some (0, [Event.read 3 100 0], [10, 11, 12, 13, 14, 15, 16, 17]) := by
  constructor
  · decide
  · decide

/-! ## C5: end of file -/

/-- At end of file with a retry-class code left in `errno`, the loop of
`stdio_read_retry` never returns: every attempt yields zero bytes and is taken
for a temporary failure. -/
theorem read_retry_loop_eof_stale : ∀ (fuel : Nat) (w : World) (fd buf : Int) (nbytes : Nat)
    (nread : Int), FD_TEMPORARY_ERR w.errno = true → w.input = [] → w.rplan = [] →
    stdio_read_retry_loop fuel w fd buf nbytes nread = none := by
  intro fuel
  induction fuel with
  | zero => intro w fd buf nbytes nread _ _ _; rfl
  | succ f ih =>
    intro w fd buf nbytes nread he hin hp
    have hstep : stdio_read_retry_loop (f + 1) w fd buf nbytes nread =
        stdio_read_retry_loop f
          { w with mem := store w.mem buf [], input := [], rplan := [],
                   log := w.log ++ [Event.read fd buf nbytes] } fd buf nbytes nread := by
      simp [stdio_read_retry_loop, sys_read, hp, hin, he]
    rw [hstep]
    exact ih _ fd buf nbytes nread he rfl rfl

/-- C5, evaluated on the code: descriptor 3, a request for 4 bytes, a channel
already at end of file (`k = 0`, no failing attempt), and `errno` holding
`EINTR` from before the call. The first attempt returns zero bytes; the claim
says the call then returns 0. The code never returns, whatever the fuel. -/
theorem stdio_read_retry_eof_stale_errno_never_returns :
    (sys_read world_eof_stale 3 100 4).1 = 0 ∧
    ∀ fuel, stdio_read_retry fuel world_eof_stale 3 100 4 = none := by
  constructor
  · decide
  · intro fuel
    have h : ¬ ((3 : Int) < 0) := by decide
    rw [stdio_read_retry, if_neg h]
    exact read_retry_loop_eof_stale fuel world_eof_stale 3 100 4 0 (by decide) rfl rfl

/-! ## C6: writing -/

theorem load_split (mem : Int → Nat) (buf : Int) (a b : Nat) :
    load mem buf (a + b) = load mem buf a ++ load mem (buf + a) b := by
  unfold load
  rw [List.range_add, List.map_append, List.map_map]
  congr 1
  apply List.map_congr_left
  intro i _
  simp only [Function.comp_apply]
  congr 1
  push_cast
  omega

/-- One turn of the loop of `stdio_write` when the attempt fails with a
would-block error: the same request is made again. -/
theorem write_loop_wouldblock (fuel : Nat) (w : World) (ctx : Nat) (buf : Int) (nbytes : Nat)
    (nwritten : Int) (e : Int) (rest : List Attempt) (hp : w.wplan = Attempt.fail e :: rest)
    (he : FD_WOULDBLOCK_ERR e = true) (h0 : nbytes ≠ 0) :
    stdio_write_loop (fuel + 1) w ctx buf nbytes nwritten =
      stdio_write_loop fuel
        { w with errno := e, wplan := rest,
                 log := w.log ++ [Event.write (w.heap ctx).fd buf nbytes] }
        ctx buf nbytes nwritten := by
  simp [stdio_write_loop, sys_write, hp, he, h0]

/-- One turn of the loop of `stdio_write` when the attempt accepts `c` bytes,
`0 < c ≤ nbytes`. -/
theorem write_loop_xfer (fuel : Nat) (w : World) (ctx : Nat) (buf : Int) (nbytes : Nat)
    (nwritten : Int) (c : Nat) (rest : List Attempt) (hp : w.wplan = Attempt.xfer c :: rest)
    (hc : 0 < c) (hcn : c ≤ nbytes) (hn : nbytes < SIZE) :
    stdio_write_loop (fuel + 1) w ctx buf nbytes nwritten =
      stdio_write_loop fuel
        (bump_nwritten
          { w with output := w.output ++ load w.mem buf c, wplan := rest,
                   log := w.log ++ [Event.write (w.heap ctx).fd buf nbytes] } ctx (c : Int))
        ctx (buf + (c : Nat)) (nbytes - c) (nwritten + (c : Nat)) := by
  have h0 : nbytes ≠ 0 := by omega
  have hmin : min c nbytes = c := by omega
  have hsub : size_sub nbytes (c : Int) = nbytes - c := size_sub_nat nbytes c hcn hn
  have h1 : ¬ ((c : Int) ≤ 0) := by omega
  simp only [stdio_write_loop, sys_write, hp, if_neg h0, List.headD_cons, hmin, if_neg h1, hsub,
    List.tail_cons]

/-- The loop of `stdio_write` when the planned attempts `P` are positive
counts and would-block failures and the counts sum to `nbytes`: it returns,
adds `nbytes` to `nwritten`, sends `buf[0..nbytes)` to the channel in order,
and adds `nbytes` (modulo `SIZE`) to the counter of the driver state. -/
theorem write_loop_full (P : List Attempt) :
    ∀ (fuel : Nat) (w : World) (ctx : Nat) (buf : Int) (nbytes : Nat) (nwritten : Int)
      (rest : List Attempt),
      w.wplan = P ++ rest → (∀ a ∈ P, a.positive_or_wouldblock = true) →
      (P.map Attempt.count).sum = nbytes → nbytes < SIZE →
      (w.heap ctx).nwritten < SIZE → P.length < fuel →
      ∃ w', stdio_write_loop fuel w ctx buf nbytes nwritten = some (nwritten + nbytes, w') ∧
        w'.output = w.output ++ load w.mem buf nbytes ∧
        w'.heap ctx =
          { w.heap ctx with nwritten := ((w.heap ctx).nwritten + nbytes) % SIZE } ∧
        w'.mem = w.mem ∧ w'.input = w.input ∧
        (∃ evs, w'.log = w.log ++ evs ∧
          ∀ ev ∈ evs, ∃ b n, ev = Event.write (w.heap ctx).fd b n ∧
            buf ≤ b ∧ b + n = buf + nbytes) := by
  induction P with
  | nil =>
    intro fuel w ctx buf nbytes nwritten rest _ _ hsum _ hw hfuel
    obtain ⟨f, rfl⟩ : ∃ f, fuel = f + 1 := ⟨fuel - 1, by simp at hfuel; omega⟩
    have h0 : nbytes = 0 := by simpa using hsum.symm
    subst h0
    refine ⟨w, by simp [stdio_write_loop], by simp [load], ?_, rfl, rfl, [], by simp, by simp⟩
    simp [Nat.mod_eq_of_lt hw]
  | cons a P ih =>
    intro fuel w ctx buf nbytes nwritten rest hp hgood hsum hn hw hfuel
    obtain ⟨f, rfl⟩ : ∃ f, fuel = f + 1 := ⟨fuel - 1, by simp at hfuel; omega⟩
    have hf : P.length < f := by simp at hfuel; omega
    have hrest : ∀ a ∈ P, a.positive_or_wouldblock = true :=
      fun x hx => hgood x (List.mem_cons_of_mem _ hx)
    have ha := hgood a (List.mem_cons_self _ _)
    by_cases h0 : nbytes = 0
    · subst h0
      refine ⟨w, by simp [stdio_write_loop], by simp [load], ?_, rfl, rfl, [], by simp,
        by simp⟩
      simp [Nat.mod_eq_of_lt hw]
    · cases a with
      | fail e =>
        have he : FD_WOULDBLOCK_ERR e = true := by
          simpa [Attempt.positive_or_wouldblock] using ha
        rw [write_loop_wouldblock f w ctx buf nbytes nwritten e (P ++ rest) (by simpa using hp)
          he h0]
        have hsum2 : (P.map Attempt.count).sum = nbytes := by
          simpa [Attempt.count] using hsum
        obtain ⟨w', hres, hout, hheap, hmem, hin, ⟨evs, hlog, hevs⟩⟩ :=
          ih f { w with errno := e, wplan := P ++ rest,
                        log := w.log ++ [Event.write (w.heap ctx).fd buf nbytes] }
            ctx buf nbytes nwritten rest rfl hrest hsum2 hn hw hf
        refine ⟨w', hres, hout, hheap, hmem, hin,
          ⟨Event.write (w.heap ctx).fd buf nbytes :: evs, by simpa using hlog, ?_⟩⟩
        intro ev hev
        rcases List.mem_cons.mp hev with h | h
        · exact ⟨buf, nbytes, h, le_refl _, rfl⟩
        · exact hevs ev h
      | xfer c =>
        have hc : 0 < c := by simpa [Attempt.positive_or_wouldblock] using ha
        have hsum2 : c + (P.map Attempt.count).sum = nbytes := by
          simpa [Attempt.count] using hsum
        have hcn : c ≤ nbytes := by omega
        rw [write_loop_xfer f w ctx buf nbytes nwritten c (P ++ rest) (by simpa using hp)
          hc hcn hn]
        have hw1 : ((bump_nwritten
            { w with output := w.output ++ load w.mem buf c, wplan := P ++ rest,
                     log := w.log ++ [Event.write (w.heap ctx).fd buf nbytes] }
            ctx (c : Int)).heap ctx) =
            { w.heap ctx with nwritten := ((w.heap ctx).nwritten + c) % SIZE } := by
          simp [bump_nwritten, size_add_nat]
        obtain ⟨w', hres, hout, hheap, hmem, hin, ⟨evs, hlog, hevs⟩⟩ :=
          ih f (bump_nwritten
              { w with output := w.output ++ load w.mem buf c, wplan := P ++ rest,
                       log := w.log ++ [Event.write (w.heap ctx).fd buf nbytes] }
              ctx (c : Int))
            ctx (buf + (c : Nat)) (nbytes - c) (nwritten + (c : Nat)) rest
            (by simp [bump_nwritten]) hrest (by omega) (by omega)
            (by rw [hw1]; exact Nat.mod_lt _ (by decide)) hf
        rw [hw1] at hheap hevs
        refine ⟨w', ?_, ?_, ?_, ?_, ?_, ⟨Event.write (w.heap ctx).fd buf nbytes :: evs, ?_, ?_⟩⟩
        · rw [hres]
          have : nwritten + (c : Int) + ((nbytes - c : Nat) : Int) = nwritten + nbytes := by
            omega
          rw [this]
        · rw [hout]
          have e1 : nbytes = c + (nbytes - c) := by omega
          conv_rhs => rw [e1, load_split]
          simp [bump_nwritten]
        · rw [hheap]
          have e2 : (((w.heap ctx).nwritten + c) % SIZE + (nbytes - c)) % SIZE =
              ((w.heap ctx).nwritten + nbytes) % SIZE := by
            rw [Nat.mod_add_mod]
            congr 1
            omega
          simp [e2]
        · rw [hmem]; simp [bump_nwritten]
        · rw [hin]; simp [bump_nwritten]
        · rw [hlog]; simp [bump_nwritten]
        · intro ev hev
          rcases List.mem_cons.mp hev with h | h
          · exact ⟨buf, nbytes, h, le_refl _, rfl⟩
          · obtain ⟨b, n, h1, h2, h3⟩ := hevs ev h
            exact ⟨b, n, h1, by omega, by omega⟩

/-- C6 (exact transfer on write): with a valid driver state, a non-null `buf`
and `N > 0`, when the coming write attempts `P` are positive partial counts
and would-block failures whose counts sum to `N`, `stdio_write` returns `N`
once the fuel exceeds the length of `P`; the channel receives exactly
`buf[0..N)` in order; every request ends at `buf + N`; the counter `nwritten`
of the driver state grows by `N` (in `size_t` arithmetic, that is modulo
`SIZE`), and `fd` and `nread` keep their values. -/
theorem stdio_write_exact (fuel : Nat) (w : World) (ctx : Nat) (buf : Int) (N : Nat)
    (P rest : List Attempt)
    (hctx : ctx ≠ 0) (hfd : 0 ≤ (w.heap ctx).fd) (hbuf : buf ≠ 0)
    (hN : 0 < N) (hN2 : N < SIZE) (hw : (w.heap ctx).nwritten < SIZE)
    (hp : w.wplan = P ++ rest) (hgood : ∀ a ∈ P, a.positive_or_wouldblock = true)
    (hsum : (P.map Attempt.count).sum = N) (hfuel : P.length < fuel) :
    ∃ w', stdio_write fuel w ctx buf N = some ((N : Int), w') ∧
      w'.output = w.output ++ load w.mem buf N ∧
      (w'.heap ctx).nwritten = ((w.heap ctx).nwritten + N) % SIZE ∧
      (w'.heap ctx).fd = (w.heap ctx).fd ∧
      (w'.heap ctx).nread = (w.heap ctx).nread ∧
      (∃ evs, w'.log = w.log ++ evs ∧
        ∀ ev ∈ evs, ∃ b n, ev = Event.write (w.heap ctx).fd b n ∧
          buf ≤ b ∧ b + n = buf + N) := by
  obtain ⟨w', hres, hout, hheap, _, _, hlog⟩ :=
    write_loop_full P fuel w ctx buf N 0 rest hp hgood hsum hN2 hw hfuel
  have hN0 : N ≠ 0 := by omega
  have hfdlt : ¬ (w.heap ctx).fd < 0 := by omega
  have hor : ¬ (ctx = 0 ∨ buf = 0) := by
    intro h
    rcases h with h | h
    · exact hctx h
    · exact hbuf h
  refine ⟨w', ?_, hout, by rw [hheap], by rw [hheap], by rw [hheap], hlog⟩
  simp only [stdio_write, if_neg hor, if_neg hfdlt, if_neg hN0]
  simpa using hres

/-- C6 at a concrete input: three bytes written as one byte, a would-block
failure, then two bytes. -/
theorem stdio_write_exact_witness :
    ∃ w', stdio_write 10 world_write_pieces 1 200 3 = some (((3 : Nat) : Int), w') ∧
      w'.output = world_write_pieces.output ++ load world_write_pieces.mem 200 3 ∧
      (w'.heap 1).nwritten = ((world_write_pieces.heap 1).nwritten + 3) % SIZE ∧
      (w'.heap 1).fd = (world_write_pieces.heap 1).fd ∧
      (w'.heap 1).nread = (world_write_pieces.heap 1).nread ∧
      (∃ evs, w'.log = world_write_pieces.log ++ evs ∧
        ∀ ev ∈ evs, ∃ b n, ev = Event.write (world_write_pieces.heap 1).fd b n ∧
          200 ≤ b ∧ b + n = 200 + (3 : Nat)) :=
  stdio_write_exact 10 world_write_pieces 1 200 3
    [Attempt.xfer 1, Attempt.fail EAGAIN, Attempt.xfer 2] [] (by decide) (by decide) (by decide)
    (by decide) (by decide) (by decide) (by decide) (by decide) (by decide) (by decide)

/-! ## C7: a write attempt that fails with a retry-class error -/

/-- C7, evaluated on the code: a valid driver state (descriptor 3), three
bytes to write, a first `write` attempt that fails with `EINTR` (retry-class,
not would-block) and a second that would accept all three. The claim says the
failure is absorbed and the call returns 3. The code returns -1 after the
first attempt and the channel receives nothing. -/
theorem stdio_write_eintr_is_fatal :
    FD_TEMPORARY_ERR EINTR = true ∧ FD_WOULDBLOCK_ERR EINTR = false ∧
    observe_out (stdio_write 10 world_write_eintr 1 200 3) =
      some (-1, [Event.write 3 200 3], []) := by
  refine ⟨by decide, by decide, by decide⟩

/-! ## C8: closing -/

/-- C8 (close contract): `stdio_close(NULL)` returns -1 with `errno = EINVAL`
and logs no call (nothing is released or closed). For a non-null driver state
the state is released exactly once, first of all: when its `fd < 0` the call
returns -1 with `errno = EBADF` and the only call made is the `free`; when
`fd ≥ 0` the calls made are the `free` and then `close(fd)`, and the call
returns what that `close` returns, 0 or -1, so the state is released also
when `close` fails. -/
theorem stdio_close_contract (w : World) (ctx : Nat) :
    (ctx = 0 →
      (stdio_close w ctx).1 = -1 ∧ (stdio_close w ctx).2.errno = EINVAL ∧
      (stdio_close w ctx).2.log = w.log) ∧
    (ctx ≠ 0 → (w.heap ctx).fd < 0 →
      (stdio_close w ctx).1 = -1 ∧ (stdio_close w ctx).2.errno = EBADF ∧
      (stdio_close w ctx).2.log = w.log ++ [Event.free ctx]) ∧
    (ctx ≠ 0 → 0 ≤ (w.heap ctx).fd →
      stdio_close w ctx = sys_close (sys_free w ctx) (w.heap ctx).fd ∧
      (stdio_close w ctx).1 = (if w.cplan.headD 0 = 0 then 0 else -1) ∧
      (stdio_close w ctx).2.log = w.log ++ [Event.free ctx, Event.close (w.heap ctx).fd]) := by
  refine ⟨?_, ?_, ?_⟩
  · intro h
    simp [stdio_close, h]
  · intro h hfd
    simp [stdio_close, h, hfd, sys_free]
  · intro h hfd
    have hfd2 : ¬ (w.heap ctx).fd < 0 := by omega
    refine ⟨?_, ?_, ?_⟩
    · simp [stdio_close, h, hfd2]
    · simp only [stdio_close, if_neg h, if_neg hfd2, sys_close, sys_free]
      split <;> rfl
    · simp only [stdio_close, if_neg h, if_neg hfd2, sys_close, sys_free]
      split <;> simp

/-- C8 at concrete inputs: the null pointer, a driver state that is not open
(address 2, `fd = -1`), and an open driver state (address 1, descriptor 3)
whose `close` fails with `EIO`. -/
theorem stdio_close_contract_witness :
    ((stdio_close world0 0).1 = -1 ∧ (stdio_close world0 0).2.errno = EINVAL ∧
      (stdio_close world0 0).2.log = world0.log) ∧
    ((stdio_close world0 2).1 = -1 ∧ (stdio_close world0 2).2.errno = EBADF ∧
      (stdio_close world0 2).2.log = world0.log ++ [Event.free 2]) ∧
    (stdio_close world_close_eio 1 =
        sys_close (sys_free world_close_eio 1) (world_close_eio.heap 1).fd ∧
      (stdio_close world_close_eio 1).1 = (if world_close_eio.cplan.headD 0 = 0 then 0 else -1) ∧
      (stdio_close world_close_eio 1).2.log =
        world_close_eio.log ++ [Event.free 1, Event.close (world_close_eio.heap 1).fd]) :=
  ⟨(stdio_close_contract world0 0).1 rfl,
   (stdio_close_contract world0 2).2.1 (by decide) (by decide),
   (stdio_close_contract world_close_eio 1).2.2 (by decide) (by decide)⟩

/-! ## C9 and C10: opening -/

/-- What a successful `s3g_stdio_open` did: the context was non-null, `calloc`
succeeded and gave address `w.brk + 1`, and either `src` was null and the
descriptor is that of a standard stream, or `src` named a file and `open`
returned a descriptor. -/
theorem s3g_stdio_open_ok (w : World) (ctx : Option s3g_context_t) (src : Option String)
    (create_file mode : Int) (hok : (s3g_stdio_open w ctx src create_file mode).1 = 0) :
    ∃ c fd logged, ctx = some c ∧ 0 ≤ fd ∧
      ((src = none ∧ fd = (if create_file ≠ 0 then fileno_stdout else fileno_stdin) ∧
          logged = [Event.calloc (w.brk + 1)]) ∨
       (∃ fname, src = some fname ∧ fd = w.open_fd ∧
          logged = [Event.calloc (w.brk + 1),
            Event.sysopen fname (if create_file ≠ 0 then O_CREAT ||| O_WRONLY else O_RDONLY)
              mode])) ∧
      (s3g_stdio_open w ctx src create_file mode).2.2 =
        some { close := Proc.stdio_close, read := Proc.stdio_read, r_ctx := w.brk + 1,
               write := if create_file ≠ 0 then Proc.stdio_write else Proc.null,
               w_ctx := if create_file ≠ 0 then w.brk + 1 else 0 } ∧
      (s3g_stdio_open w ctx src create_file mode).2.1.heap (w.brk + 1) = ⟨fd, 0, 0⟩ ∧
      (s3g_stdio_open w ctx src create_file mode).2.1.log = w.log ++ logged := by
  cases ctx with
  | none => simp [s3g_stdio_open] at hok
  | some c =>
    by_cases hoom : w.oom = true
    · simp [s3g_stdio_open, sys_calloc, hoom] at hok
    · cases src with
      | none =>
        refine ⟨c, if create_file ≠ 0 then fileno_stdout else fileno_stdin,
          [Event.calloc (w.brk + 1)], rfl, ?_, Or.inl ⟨rfl, rfl, rfl⟩, ?_, ?_, ?_⟩
        · split <;> decide
        · simp [s3g_stdio_open, sys_calloc, hoom]
        · simp [s3g_stdio_open, sys_calloc, hoom, set_fd]
        · simp [s3g_stdio_open, sys_calloc, hoom, set_fd]
      | some fname =>
        by_cases hfd : w.open_fd < 0
        · simp [s3g_stdio_open, sys_calloc, hoom, sys_open, hfd] at hok
        · refine ⟨c, w.open_fd, _, rfl, by omega, Or.inr ⟨fname, rfl, rfl, rfl⟩, ?_, ?_, ?_⟩
          · simp [s3g_stdio_open, sys_calloc, hoom, sys_open, hfd]
          · simp [s3g_stdio_open, sys_calloc, hoom, sys_open, hfd, set_fd]
          · simp [s3g_stdio_open, sys_calloc, hoom, sys_open, hfd, set_fd]

/-- C9 (open binds capabilities by mode): after a successful `s3g_stdio_open`
the read slot is `stdio_read` bound to the driver state `calloc` has just
handed out (address `w.brk + 1`, logged as allocated by this call), whose
`nread` and `nwritten` are 0. With `create_file = 0` the write slot is empty
(`write` and `w_ctx` null) and the descriptor is standard input when `src` is
null. With `create_file ≠ 0` the write slot is `stdio_write` bound to that
same fresh driver state, whose descriptor is standard output when `src` is
null and otherwise the descriptor returned by `open` called with
`O_CREAT | O_WRONLY` and the given mode. -/
theorem s3g_stdio_open_binds_by_mode (w : World) (ctx : Option s3g_context_t)
    (src : Option String) (create_file mode : Int)
    (hok : (s3g_stdio_open w ctx src create_file mode).1 = 0) :
    ∃ c', (s3g_stdio_open w ctx src create_file mode).2.2 = some c' ∧
      c'.read = Proc.stdio_read ∧ c'.r_ctx = w.brk + 1 ∧
      ((s3g_stdio_open w ctx src create_file mode).2.1.heap (w.brk + 1)).nread = 0 ∧
      ((s3g_stdio_open w ctx src create_file mode).2.1.heap (w.brk + 1)).nwritten = 0 ∧
      (∃ later, (s3g_stdio_open w ctx src create_file mode).2.1.log =
        w.log ++ Event.calloc (w.brk + 1) :: later) ∧
      (create_file = 0 →
        c'.write = Proc.null ∧ c'.w_ctx = 0 ∧
        (src = none →
          ((s3g_stdio_open w ctx src create_file mode).2.1.heap (w.brk + 1)).fd
            = fileno_stdin)) ∧
      (create_file ≠ 0 →
        c'.write = Proc.stdio_write ∧ c'.w_ctx = w.brk + 1 ∧
        (src = none →
          ((s3g_stdio_open w ctx src create_file mode).2.1.heap (w.brk + 1)).fd
            = fileno_stdout) ∧
        (∀ fname, src = some fname →
          ((s3g_stdio_open w ctx src create_file mode).2.1.heap (w.brk + 1)).fd = w.open_fd ∧
          0 ≤ w.open_fd ∧
          (s3g_stdio_open w ctx src create_file mode).2.1.log =
            w.log ++ [Event.calloc (w.brk + 1),
              Event.sysopen fname (O_CREAT ||| O_WRONLY) mode])) := by
  obtain ⟨c, fd, logged, _, hfd, hsrc, hctx, hheap, hlog⟩ :=
    s3g_stdio_open_ok w ctx src create_file mode hok
  refine ⟨_, hctx, rfl, rfl, by rw [hheap], by rw [hheap], ?_, ?_, ?_⟩
  · rcases hsrc with ⟨_, _, hl⟩ | ⟨fname, _, _, hl⟩
    · exact ⟨[], by rw [hlog, hl]⟩
    · exact ⟨_, by rw [hlog, hl]⟩
  · intro hcf
    refine ⟨by simp [hcf], by simp [hcf], ?_⟩
    intro hnone
    rcases hsrc with ⟨_, hfdv, _⟩ | ⟨fname, hs, _, _⟩
    · rw [hheap, hfdv]; simp [hcf]
    · rw [hnone] at hs; cases hs
  · intro hcf
    refine ⟨by simp [hcf], by simp [hcf], ?_, ?_⟩
    · intro hnone
      rcases hsrc with ⟨_, hfdv, _⟩ | ⟨fname, hs, _, _⟩
      · rw [hheap, hfdv]; simp [hcf]
      · rw [hnone] at hs; cases hs
    · intro fname hsome
      rcases hsrc with ⟨hs, _, _⟩ | ⟨fname2, hs, hfdv, hl⟩
      · rw [hsome] at hs; cases hs
      · rw [hsome] at hs
        cases hs
        refine ⟨by rw [hheap, hfdv], by rw [← hfdv]; exact hfd, ?_⟩
        rw [hlog, hl]
        simp [hcf]

/-- C9 at a concrete input: creating the file `out.x3g` with mode 420. -/
theorem s3g_stdio_open_binds_by_mode_witness :
    ∃ c', (s3g_stdio_open world0 (some ctx_empty) (some "out.x3g") 1 420).2.2 = some c' ∧
      c'.read = Proc.stdio_read ∧ c'.r_ctx = world0.brk + 1 ∧
      ((s3g_stdio_open world0 (some ctx_empty) (some "out.x3g") 1 420).2.1.heap
        (world0.brk + 1)).nread = 0 ∧
      ((s3g_stdio_open world0 (some ctx_empty) (some "out.x3g") 1 420).2.1.heap
        (world0.brk + 1)).nwritten = 0 ∧
      (∃ later, (s3g_stdio_open world0 (some ctx_empty) (some "out.x3g") 1 420).2.1.log =
        world0.log ++ Event.calloc (world0.brk + 1) :: later) ∧
      ((1 : Int) = 0 →
        c'.write = Proc.null ∧ c'.w_ctx = 0 ∧
        ((some "out.x3g" : Option String) = none →
          ((s3g_stdio_open world0 (some ctx_empty) (some "out.x3g") 1 420).2.1.heap
            (world0.brk + 1)).fd = fileno_stdin)) ∧
      ((1 : Int) ≠ 0 →
        c'.write = Proc.stdio_write ∧ c'.w_ctx = world0.brk + 1 ∧
        ((some "out.x3g" : Option String) = none →
          ((s3g_stdio_open world0 (some ctx_empty) (some "out.x3g") 1 420).2.1.heap
            (world0.brk + 1)).fd = fileno_stdout) ∧
        (∀ fname, some "out.x3g" = some fname →
          ((s3g_stdio_open world0 (some ctx_empty) (some "out.x3g") 1 420).2.1.heap
            (world0.brk + 1)).fd = world0.open_fd ∧
          0 ≤ world0.open_fd ∧
          (s3g_stdio_open world0 (some ctx_empty) (some "out.x3g") 1 420).2.1.log =
            world0.log ++ [Event.calloc (world0.brk + 1),
              Event.sysopen fname (O_CREAT ||| O_WRONLY) 420])) :=
  s3g_stdio_open_binds_by_mode world0 (some ctx_empty) (some "out.x3g") 1 420 (by decide)

/-- Closing an open driver state: the calls made are `free` then `close`. -/
theorem stdio_close_open_log (w : World) (ctx : Nat) (hctx : ctx ≠ 0)
    (hfd : 0 ≤ (w.heap ctx).fd) :
    (stdio_close w ctx).2.log = w.log ++ [Event.free ctx, Event.close (w.heap ctx).fd] := by
  have hfd2 : ¬ (w.heap ctx).fd < 0 := by omega
  simp only [stdio_close, if_neg hctx, if_neg hfd2, sys_close, sys_free]
  split <;> simp

/-- C10, counterexample: opening standard output for writing
(`create_file = 1`, `src = NULL`) succeeds and leaves the same non-null driver
state (address 2) in the read slot and in the write slot; once the read slot
has been closed (one `free`, one `close`), the state the write slot holds is a
released one. -/
theorem s3g_stdio_open_create_shares_state :
    (s3g_stdio_open world0 (some ctx_empty) none 1 0).1 = 0 ∧
    (s3g_stdio_open world0 (some ctx_empty) none 1 0).2.2 =
      some ⟨Proc.stdio_close, Proc.stdio_read, 2, Proc.stdio_write, 2⟩ ∧
    (stdio_close (s3g_stdio_open world0 (some ctx_empty) none 1 0).2.1 2).2.log =
      [Event.calloc 2, Event.free 2, Event.close 1] := by
  refine ⟨by decide, by decide, by decide⟩

/-- C10, as the code has it: after a successful `s3g_stdio_open` the read slot
holds the fresh driver state, an open one, and closing that slot once releases
the state exactly once (one `free`, then one `close` of its descriptor). With
`create_file = 0` the write slot is null, so no state is held by two slots.
With `create_file ≠ 0` the write slot holds the same driver state as the read
slot: closing it once through the write slot instead releases it exactly once
as well, and after a close through the read slot the state the write slot
still holds has been released. -/
theorem s3g_stdio_open_ownership (w : World) (ctx : Option s3g_context_t)
    (src : Option String) (create_file mode : Int)
    (hok : (s3g_stdio_open w ctx src create_file mode).1 = 0) :
    ∃ c' fd, (s3g_stdio_open w ctx src create_file mode).2.2 = some c' ∧
      c'.r_ctx = w.brk + 1 ∧ c'.r_ctx ≠ 0 ∧ 0 ≤ fd ∧
      (stdio_close (s3g_stdio_open w ctx src create_file mode).2.1 c'.r_ctx).2.log =
        (s3g_stdio_open w ctx src create_file mode).2.1.log ++
          [Event.free (w.brk + 1), Event.close fd] ∧
      (create_file = 0 → c'.w_ctx = 0) ∧
      (create_file ≠ 0 → c'.w_ctx = c'.r_ctx ∧
        (stdio_close (s3g_stdio_open w ctx src create_file mode).2.1 c'.w_ctx).2.log =
          (s3g_stdio_open w ctx src create_file mode).2.1.log ++
            [Event.free (w.brk + 1), Event.close fd] ∧
        Event.free c'.w_ctx ∈
          (stdio_close (s3g_stdio_open w ctx src create_file mode).2.1 c'.r_ctx).2.log) := by
  obtain ⟨c, fd, logged, _, hfd, _, hctx, hheap, _⟩ :=
    s3g_stdio_open_ok w ctx src create_file mode hok
  generalize (s3g_stdio_open w ctx src create_file mode).2.1 = w1 at hheap ⊢
  have hne : w.brk + 1 ≠ 0 := by omega
  have hfd1 : 0 ≤ (w1.heap (w.brk + 1)).fd := by rw [hheap]; exact hfd
  have hl1 := stdio_close_open_log w1 (w.brk + 1) hne hfd1
  rw [hheap] at hl1
  refine ⟨_, fd, hctx, rfl, hne, hfd, hl1, ?_, ?_⟩
  · intro hcf
    simp [hcf]
  · intro hcf
    simp only [if_pos hcf]
    refine ⟨trivial, hl1, ?_⟩
    rw [hl1]
    simp

/-- C10 (ownership as the code has it) at a concrete input: creating the file
`out.x3g`. -/
theorem s3g_stdio_open_ownership_witness :
    ∃ c' fd, (s3g_stdio_open world0 (some ctx_empty) (some "out.x3g") 1 420).2.2 = some c' ∧
      c'.r_ctx = world0.brk + 1 ∧ c'.r_ctx ≠ 0 ∧ 0 ≤ fd ∧
      (stdio_close (s3g_stdio_open world0 (some ctx_empty) (some "out.x3g") 1 420).2.1
          c'.r_ctx).2.log =
        (s3g_stdio_open world0 (some ctx_empty) (some "out.x3g") 1 420).2.1.log ++
          [Event.free (world0.brk + 1), Event.close fd] ∧
      ((1 : Int) = 0 → c'.w_ctx = 0) ∧
      ((1 : Int) ≠ 0 → c'.w_ctx = c'.r_ctx ∧
        (stdio_close (s3g_stdio_open world0 (some ctx_empty) (some "out.x3g") 1 420).2.1
            c'.w_ctx).2.log =
          (s3g_stdio_open world0 (some ctx_empty) (some "out.x3g") 1 420).2.1.log ++
            [Event.free (world0.brk + 1), Event.close fd] ∧
        Event.free c'.w_ctx ∈
          (stdio_close (s3g_stdio_open world0 (some ctx_empty) (some "out.x3g") 1 420).2.1
            c'.r_ctx).2.log) :=
  s3g_stdio_open_ownership world0 (some ctx_empty) (some "out.x3g") 1 420 (by decide)

/-! ## Supporting facts: what the code does around the defects -/

theorem store_nil (mem : Int → Nat) (buf : Int) : store mem buf [] = mem := by
  funext a
  unfold store
  have h : ¬ (buf ≤ a ∧ a < buf + (([] : List Nat).length : Int)) := by
    simp only [List.length_nil]; omega
  rw [if_neg h]

/-- One turn of the loop of `stdio_read_retry` when the attempt does not fail
and transfers nothing (the request is for 0 bytes or the channel is at end of
file) while `errno` holds no retry-class code: the loop returns `nread`. -/
theorem read_retry_loop_zero (fuel : Nat) (w : World) (fd buf : Int) (nbytes : Nat)
    (nread : Int) (c : Nat) (hp : w.rplan.headD (Attempt.xfer nbytes) = Attempt.xfer c)
    (hk : min (min c nbytes) w.input.length = 0) (he : FD_TEMPORARY_ERR w.errno = false) :
    stdio_read_retry_loop (fuel + 1) w fd buf nbytes nread =
      some (nread, { w with rplan := w.rplan.tail,
                            log := w.log ++ [Event.read fd buf nbytes] }) := by
  simp only [stdio_read_retry_loop, sys_read, hp, hk]
  simp [he, store_nil]

/-- End of file with a clean `errno`: over a channel that holds `k < nbytes`
bytes, delivered in positive pieces, when `errno` holds no retry-class code at
entry, the loop of `stdio_read_retry` returns `nread + k` with the `k` bytes
stored at `buf`. -/
theorem read_retry_loop_eof_clean (P : List Attempt) :
    ∀ (fuel : Nat) (w : World) (fd buf : Int) (nbytes : Nat) (nread : Int),
      w.rplan = P → (∀ a ∈ P, a.positive = true) → FD_TEMPORARY_ERR w.errno = false →
      w.input.length < nbytes → nbytes < SIZE → P.length + 1 < fuel →
      ∃ w', stdio_read_retry_loop fuel w fd buf nbytes nread =
          some (nread + w.input.length, w') ∧
        w'.input = [] ∧ w'.mem = store w.mem buf w.input ∧ w'.errno = w.errno := by
  induction P with
  | nil =>
    intro fuel w fd buf nbytes nread hp _ he hlen hn hfuel
    obtain ⟨f, rfl⟩ : ∃ f, fuel = f + 2 := ⟨fuel - 2, by simp at hfuel; omega⟩
    have hhd : w.rplan.headD (Attempt.xfer nbytes) = Attempt.xfer nbytes := by simp [hp]
    have hmin : min (min nbytes nbytes) w.input.length = w.input.length := by
      simp only [min_self]; omega
    by_cases hD : w.input.length = 0
    · rw [read_retry_loop_zero (f + 1) w fd buf nbytes nread nbytes hhd (by omega) he]
      have hnil : w.input = [] := List.length_eq_zero.mp hD
      refine ⟨{ w with rplan := w.rplan.tail, log := w.log ++ [Event.read fd buf nbytes] },
        ?_, hnil, ?_, rfl⟩
      · rw [hD]; simp
      · simp only [hnil, store_nil]
    · rw [read_retry_loop_xfer (f + 1) w fd buf nbytes nread nbytes hhd (by omega) hn, hmin,
        if_neg (by omega)]
      rw [read_retry_loop_zero f
        { w with mem := store w.mem buf (w.input.take w.input.length),
                 input := w.input.drop w.input.length, rplan := w.rplan.tail,
                 log := w.log ++ [Event.read fd buf nbytes] }
        fd (buf + (w.input.length : Nat)) (nbytes - w.input.length)
        (nread + (w.input.length : Nat)) (nbytes - w.input.length) (by simp [hp])
        (by simp) he]
      refine ⟨_, rfl, by simp, by simp, rfl⟩
  | cons a rest ih =>
    intro fuel w fd buf nbytes nread hp hgood he hlen hn hfuel
    obtain ⟨f, rfl⟩ : ∃ f, fuel = f + 1 := ⟨fuel - 1, by simp at hfuel; omega⟩
    have hf : rest.length + 1 < f := by simp at hfuel; omega
    have hrest : ∀ a ∈ rest, a.positive = true :=
      fun x hx => hgood x (List.mem_cons_of_mem _ hx)
    have ha := hgood a (List.mem_cons_self _ _)
    cases a with
    | fail e => simp [Attempt.positive] at ha
    | xfer c =>
      have hc : 0 < c := by simpa [Attempt.positive] using ha
      have hhd : w.rplan.headD (Attempt.xfer nbytes) = Attempt.xfer c := by simp [hp]
      by_cases hD : w.input.length = 0
      · rw [read_retry_loop_zero f w fd buf nbytes nread c hhd (by omega) he]
        have hnil : w.input = [] := List.length_eq_zero.mp hD
        refine ⟨{ w with rplan := w.rplan.tail, log := w.log ++ [Event.read fd buf nbytes] },
          ?_, hnil, ?_, rfl⟩
        · rw [hD]; simp
        · simp only [hnil, store_nil]
      · have hk0 : 0 < min (min c nbytes) w.input.length := by
          simp only [lt_min_iff]; omega
        rw [read_retry_loop_xfer f w fd buf nbytes nread c hhd hk0 hn]
        generalize hkd : min (min c nbytes) w.input.length = k at hk0 ⊢
        have hkD : k ≤ w.input.length := by omega
        rw [if_neg (by omega)]
        obtain ⟨w', hres, hin, hmem, herr⟩ :=
          ih f { w with mem := store w.mem buf (w.input.take k), input := w.input.drop k,
                        rplan := w.rplan.tail, log := w.log ++ [Event.read fd buf nbytes] }
            fd (buf + (k : Nat)) (nbytes - k) (nread + (k : Nat)) (by simp [hp]) hrest he
            (by simp only [List.length_drop]; omega) (by omega) hf
        refine ⟨w', ?_, hin, ?_, herr⟩
        · rw [hres]
          simp only [List.length_drop]
          have : nread + (k : Int) + ((w.input.length - k : Nat) : Int) =
              nread + w.input.length := by omega
          rw [this]
        · rw [hmem]
          simp only
          have h1 : List.drop k w.input = (List.drop k w.input).take (w.input.length - k) := by
            rw [List.take_of_length_le]; simp
          rw [h1, store_take_step w.mem buf w.input k (w.input.length - k) hkD]
          have h2 : k + (w.input.length - k) = w.input.length := by omega
          rw [h2, List.take_length]

/-- The function `stdio_read_retry` at end of file with a clean `errno`: it
returns the number `k` of bytes the channel still held, stored at `buf`. -/
theorem stdio_read_retry_eof_clean_errno (fuel : Nat) (w : World) (fd buf : Int) (nbytes : Nat)
    (hfd : 0 ≤ fd) (hplan : ∀ a ∈ w.rplan, a.positive = true)
    (he : FD_TEMPORARY_ERR w.errno = false) (hk : w.input.length < nbytes)
    (hn : nbytes < SIZE) (hfuel : w.rplan.length + 1 < fuel) :
    ∃ w', stdio_read_retry fuel w fd buf nbytes = some ((w.input.length : Int), w') ∧
      w'.input = [] ∧ w'.mem = store w.mem buf w.input ∧ w'.errno = w.errno := by
  unfold stdio_read_retry
  rw [if_neg (by omega)]
  have h := read_retry_loop_eof_clean w.rplan fuel w fd buf nbytes 0 rfl hplan he hk hn hfuel
  simpa using h

/-- The function `stdio_read` with no destination (`buf` null or
`maxbuf = 0`) and `nbytes > 0`, when `errno` holds no retry-class code and the
next attempt does not fail: one `read` of zero bytes is made, nothing is taken
from the channel, and the call returns 0. -/
theorem stdio_read_no_destination (fuel : Nat) (w : World) (ctx : Nat) (buf : Int)
    (maxbuf N : Nat) (tmpbuf : Int) (c : Nat)
    (hctx : ctx ≠ 0) (hfd : 0 ≤ (w.heap ctx).fd) (hN : 0 < N)
    (hdest : buf = 0 ∨ maxbuf = 0)
    (hp : w.rplan.headD (Attempt.xfer 0) = Attempt.xfer c)
    (he : FD_TEMPORARY_ERR w.errno = false) :
    stdio_read (fuel + 1) w ctx buf maxbuf N tmpbuf =
      some (0, { w with rplan := w.rplan.tail,
                        log := w.log ++ [Event.read (w.heap ctx).fd buf 0] }) := by
  have hN0 : N ≠ 0 := by omega
  have hfdlt : ¬ (w.heap ctx).fd < 0 := by omega
  have hmax : (if buf = 0 then 0 else maxbuf) = 0 := by
    rcases hdest with h | h
    · simp [h]
    · simp [h]
  have hle : ¬ N ≤ 0 := by omega
  simp only [stdio_read, if_neg hctx, if_neg hfdlt, if_neg hN0, hmax, if_neg hle,
    stdio_read_retry]
  rw [read_retry_loop_zero fuel w (w.heap ctx).fd buf 0 0 c hp (by simp) he]
  simp

/-- One turn of the loop of `stdio_write` when the attempt fails with an error
that is not would-block, retry-class or not: the call returns -1. -/
theorem write_loop_fail_other (fuel : Nat) (w : World) (ctx : Nat) (buf : Int) (nbytes : Nat)
    (nwritten : Int) (e : Int) (rest : List Attempt) (hp : w.wplan = Attempt.fail e :: rest)
    (he : FD_WOULDBLOCK_ERR e = false) (h0 : nbytes ≠ 0) :
    stdio_write_loop (fuel + 1) w ctx buf nbytes nwritten =
      some (-1, { w with errno := e, wplan := rest,
                         log := w.log ++ [Event.write (w.heap ctx).fd buf nbytes] }) := by
  simp [stdio_write_loop, sys_write, hp, he, h0]

/-! ## C11: retry-class failures during a read -/

theorem spec_read_requests_zero (fd buf : Int) (P : List Attempt) :
    spec_read_requests fd buf 0 P = [] := by
  cases P with
  | nil => rfl
  | cons a P => cases a <;> simp [spec_read_requests]

theorem load_store (mem : Int → Nat) (buf : Int) (bs : List Nat) :
    load (store mem buf bs) buf bs.length = bs := by
  apply List.ext_getElem
  · simp [load]
  · intro i h1 h2
    simp only [load, List.getElem_map, List.getElem_range]
    rw [store_apply_in mem buf bs i h2]
    simp [List.getD_eq_getElem?_getD, h2]

/-- The loop of `stdio_read_retry` when the coming attempts `P` are positive
partial reads and retry-class failures whose counts sum to `nbytes`: it
returns, adds `nbytes` to `nread`, stores the bytes delivered at `buf`, and
makes exactly the requests of `spec_read_requests`. -/
theorem read_retry_loop_transparent (P : List Attempt) :
    ∀ (fuel : Nat) (w : World) (fd buf : Int) (nbytes : Nat) (nread : Int)
      (rest : List Attempt),
      w.rplan = P ++ rest → (∀ a ∈ P, a.positive_or_retry = true) →
      (P.map Attempt.count).sum = nbytes →
      0 < nbytes → nbytes < SIZE → nbytes ≤ w.input.length → P.length < fuel →
      ∃ w', stdio_read_retry_loop fuel w fd buf nbytes nread = some (nread + nbytes, w') ∧
        w'.input = w.input.drop nbytes ∧
        w'.mem = store w.mem buf (w.input.take nbytes) ∧
        w'.log = w.log ++ spec_read_requests fd buf nbytes P := by
  induction P with
  | nil =>
    intro fuel w fd buf nbytes nread rest _ _ hsum hpos _ _ _
    simp at hsum
    omega
  | cons a P ih =>
    intro fuel w fd buf nbytes nread rest hp hgood hsum hpos hn hlen hfuel
    obtain ⟨f, rfl⟩ : ∃ f, fuel = f + 1 := ⟨fuel - 1, by simp at hfuel; omega⟩
    have hf : P.length < f := by simp at hfuel; omega
    have hrest : ∀ a ∈ P, a.positive_or_retry = true :=
      fun x hx => hgood x (List.mem_cons_of_mem _ hx)
    have ha := hgood a (List.mem_cons_self _ _)
    have hne : nbytes ≠ 0 := by omega
    cases a with
    | fail e =>
      have he : FD_TEMPORARY_ERR e = true := by simpa [Attempt.positive_or_retry] using ha
      have hsum2 : (P.map Attempt.count).sum = nbytes := by
        simpa [Attempt.count] using hsum
      rw [read_retry_loop_fail_retry f w fd buf nbytes nread e (P ++ rest) (by simpa using hp)
        he]
      obtain ⟨w', hres, hin, hmem, hlog⟩ :=
        ih f { w with errno := e, rplan := P ++ rest,
                      log := w.log ++ [Event.read fd buf nbytes] }
          fd buf nbytes nread rest rfl hrest hsum2 hpos hn hlen hf
      refine ⟨w', hres, hin, hmem, ?_⟩
      rw [hlog]
      simp [spec_read_requests, hne]
    | xfer c =>
      have hc : 0 < c := by simpa [Attempt.positive_or_retry] using ha
      have hsum2 : c + (P.map Attempt.count).sum = nbytes := by
        simpa [Attempt.count] using hsum
      have hhd : w.rplan.headD (Attempt.xfer nbytes) = Attempt.xfer c := by simp [hp]
      have hk : min (min c nbytes) w.input.length = c := by omega
      rw [read_retry_loop_xfer f w fd buf nbytes nread c hhd (by omega) hn, hk]
      by_cases h3 : c = nbytes
      · rw [if_pos h3]
        refine ⟨_, rfl, rfl, rfl, ?_⟩
        simp [spec_read_requests, hne, h3, spec_read_requests_zero]
      · rw [if_neg h3]
        obtain ⟨w', hres, hin, hmem, hlog⟩ :=
          ih f { w with mem := store w.mem buf (w.input.take c), input := w.input.drop c,
                        rplan := w.rplan.tail, log := w.log ++ [Event.read fd buf nbytes] }
            fd (buf + (c : Nat)) (nbytes - c) (nread + (c : Nat)) rest (by simp [hp]) hrest
            (by omega) (by omega) (by omega) (by simp only [List.length_drop]; omega) hf
        refine ⟨w', ?_, ?_, ?_, ?_⟩
        · rw [hres]
          have : nread + (c : Int) + ((nbytes - c : Nat) : Int) = nread + nbytes := by omega
          rw [this]
        · rw [hin]
          simp only [List.drop_drop]
          congr 1
          omega
        · rw [hmem]
          simp only
          rw [store_take_step w.mem buf w.input c (nbytes - c) (by omega)]
          have hs : c + (nbytes - c) = nbytes := by omega
          rw [hs]
        · rw [hlog]
          simp [spec_read_requests, hne]

/-- The four codes the retry rule names are the ones `FD_TEMPORARY_ERR()`
accepts. -/
theorem FD_TEMPORARY_ERR_iff (e : Int) :
    FD_TEMPORARY_ERR e = true ↔ e = EINTR ∨ e = ENOMEM ∨ e = ENOBUFS ∨ e = ENOSR := by
  simp [FD_TEMPORARY_ERR, or_assoc]

/-- C11 (retry transparency on read): on an open descriptor, for `N > 0`, when
each of the coming read attempts `P` is a positive partial read or a failure
with one of the codes `EINTR`, `ENOMEM`, `ENOBUFS`, `ENOSR`, and the counts
sum to `N`, `stdio_read_retry` returns `N` once the fuel exceeds the length of
`P`; `buf[0..N)` holds the `N` bytes delivered, in channel order, and no other
byte of memory changes; the channel has moved on by `N` bytes; and the
requests made are exactly those of `spec_read_requests`: a failed attempt is
followed by the same request, a partial read by a request for the bytes still
missing at the position after it. -/
theorem stdio_read_retry_transparent (fuel : Nat) (w : World) (fd buf : Int) (N : Nat)
    (P rest : List Attempt)
    (hfd : 0 ≤ fd) (hN : 0 < N) (hN2 : N < SIZE)
    (hp : w.rplan = P ++ rest)
    (hgood : ∀ a ∈ P, (∃ c, 0 < c ∧ a = Attempt.xfer c) ∨ a = Attempt.fail EINTR ∨
      a = Attempt.fail ENOMEM ∨ a = Attempt.fail ENOBUFS ∨ a = Attempt.fail ENOSR)
    (hsum : (P.map Attempt.count).sum = N) (hdata : N ≤ w.input.length)
    (hfuel : P.length < fuel) :
    ∃ w', stdio_read_retry fuel w fd buf N = some ((N : Int), w') ∧
      load w'.mem buf N = w.input.take N ∧
      (∀ a, (a < buf ∨ buf + N ≤ a) → w'.mem a = w.mem a) ∧
      w'.input = w.input.drop N ∧
      w'.log = w.log ++ spec_read_requests fd buf N P := by
  have hcode : ∀ a ∈ P, a.positive_or_retry = true := by
    intro a ha
    rcases hgood a ha with ⟨c, hc, rfl⟩ | rfl | rfl | rfl | rfl
    · simpa [Attempt.positive_or_retry] using hc
    · show FD_TEMPORARY_ERR EINTR = true
      decide
    · show FD_TEMPORARY_ERR ENOMEM = true
      decide
    · show FD_TEMPORARY_ERR ENOBUFS = true
      decide
    · show FD_TEMPORARY_ERR ENOSR = true
      decide
  obtain ⟨w', hres, hin, hmem, hlog⟩ :=
    read_retry_loop_transparent P fuel w fd buf N 0 rest hp hcode hsum hN hN2 hdata hfuel
  have htake : (w.input.take N).length = N := by
    simp only [List.length_take]; omega
  refine ⟨w', ?_, ?_, ?_, hin, hlog⟩
  · simp only [stdio_read_retry, if_neg (show ¬ fd < 0 by omega)]
    simpa using hres
  · rw [hmem]
    have h := load_store w.mem buf (w.input.take N)
    rw [htake] at h
    exact h
  · intro a ha
    rw [hmem]
    apply store_apply_out
    rw [htake]
    exact ha

/-- C11 at a concrete input: four bytes read through a failure of each of the
four codes: interrupted, one byte, out of memory, out of buffers, two bytes,
out of stream resources, one byte. -/
theorem stdio_read_retry_transparent_witness :
    ∃ w', stdio_read_retry 10 world_read_retries 3 100 4 = some (((4 : Nat) : Int), w') ∧
      load w'.mem 100 4 = world_read_retries.input.take 4 ∧
      (∀ a : Int, (a < 100 ∨ 100 + (4 : Nat) ≤ a) → w'.mem a = world_read_retries.mem a) ∧
      w'.input = world_read_retries.input.drop 4 ∧
      w'.log = world_read_retries.log ++
        spec_read_requests 3 100 4
          [Attempt.fail EINTR, Attempt.xfer 1, Attempt.fail ENOMEM, Attempt.fail ENOBUFS,
            Attempt.xfer 2, Attempt.fail ENOSR, Attempt.xfer 1] :=
  stdio_read_retry_transparent 10 world_read_retries 3 100 4
    [Attempt.fail EINTR, Attempt.xfer 1, Attempt.fail ENOMEM, Attempt.fail ENOBUFS,
      Attempt.xfer 2, Attempt.fail ENOSR, Attempt.xfer 1] []
    (by decide) (by decide) (by decide) (by decide) (by simp) (by decide) (by decide)
    (by decide)

/-! ## C12: end of file after an interrupted attempt -/

/-- C12, evaluated on the code: descriptor 3, a request for 4 bytes, `errno`
0 at entry; the first attempt is interrupted (`EINTR`) and retried, the second
delivers 2 bytes, the third returns zero bytes (end of file). The claim says
the call then returns the 2 bytes accumulated. The code finds `EINTR` still in
`errno`, takes the zero-byte read for a temporary failure and retries; the
channel stays at end of file and the call never returns, whatever the fuel. -/
theorem stdio_read_retry_eof_after_eintr_never_returns :
    (sys_read world_eintr_then_eof 3 100 4).1 = -1 ∧
    (sys_read (sys_read world_eintr_then_eof 3 100 4).2 3 100 4).1 = 2 ∧
    (sys_read (sys_read (sys_read world_eintr_then_eof 3 100 4).2 3 100 4).2 3 102 2).1 = 0 ∧
    ∀ fuel, stdio_read_retry fuel world_eintr_then_eof 3 100 4 = none := by
  refine ⟨by decide, by decide, by decide, ?_⟩
  intro fuel
  have h : ¬ ((3 : Int) < 0) := by decide
  rw [stdio_read_retry, if_neg h]
  cases fuel with
  | zero => rfl
  | succ f =>
    rw [read_retry_loop_fail_retry f world_eintr_then_eof 3 100 4 0 EINTR [Attempt.xfer 2] rfl
      (by decide)]
    cases f with
    | zero => rfl
    | succ g =>
      refine (read_retry_loop_xfer g _ 3 100 4 0 2 ?_ ?_ ?_).trans ?_
      · rfl
      · decide
      · decide
      · rw [if_neg (by decide)]
        exact read_retry_loop_eof_stale g _ 3 _ _ _ (by decide) rfl rfl

/-! ## C13: the checks made before any input or output -/

/-- C13 (argument validation precedes all I/O): for every fuel, also none,
`stdio_read` and `stdio_write` return -1 with `errno = EINVAL` when the driver
state is null (`stdio_write` also when `buf` is null), whatever `nbytes` is;
else -1 with `errno = EBADF` when the state has `fd < 0`, whatever `nbytes`
is; else 0 when `nbytes = 0`. In each case the world after the call is the
world before it with at most `errno` changed: no `read` or `write` is logged,
and the driver states and the byte memory are as they were. -/
theorem stdio_validation_first (fuel : Nat) (w : World) (ctx : Nat) (buf : Int)
    (maxbuf nbytes : Nat) (tmpbuf : Int) :
    (ctx = 0 →
      stdio_read fuel w ctx buf maxbuf nbytes tmpbuf = some (-1, { w with errno := EINVAL })) ∧
    (ctx = 0 ∨ buf = 0 →
      stdio_write fuel w ctx buf nbytes = some (-1, { w with errno := EINVAL })) ∧
    (ctx ≠ 0 → (w.heap ctx).fd < 0 →
      stdio_read fuel w ctx buf maxbuf nbytes tmpbuf = some (-1, { w with errno := EBADF })) ∧
    (ctx ≠ 0 → buf ≠ 0 → (w.heap ctx).fd < 0 →
      stdio_write fuel w ctx buf nbytes = some (-1, { w with errno := EBADF })) ∧
    (ctx ≠ 0 → 0 ≤ (w.heap ctx).fd → nbytes = 0 →
      stdio_read fuel w ctx buf maxbuf nbytes tmpbuf = some (0, w)) ∧
    (ctx ≠ 0 → buf ≠ 0 → 0 ≤ (w.heap ctx).fd → nbytes = 0 →
      stdio_write fuel w ctx buf nbytes = some (0, w)) := by
  have hcast : ssize_of_size (size_of_int (-1)) = -1 := by decide
  refine ⟨?_, ?_, ?_, ?_, ?_, ?_⟩
  · intro h
    simp only [stdio_read, if_pos h]
  · intro h
    simp only [stdio_write, if_pos h]
  · intro h hfd
    simp only [stdio_read, if_neg h, if_pos hfd, hcast]
  · intro h hb hfd
    have hor : ¬ (ctx = 0 ∨ buf = 0) := fun x => x.elim h hb
    simp only [stdio_write, if_neg hor, if_pos hfd, hcast]
  · intro h hfd hn
    have hfd2 : ¬ (w.heap ctx).fd < 0 := by omega
    simp only [stdio_read, if_neg h, if_neg hfd2, if_pos hn]
  · intro h hb hfd hn
    have hor : ¬ (ctx = 0 ∨ buf = 0) := fun x => x.elim h hb
    have hfd2 : ¬ (w.heap ctx).fd < 0 := by omega
    simp only [stdio_write, if_neg hor, if_neg hfd2, if_pos hn]

/-- C13 at concrete inputs, with no fuel at all: a null driver state with
`nbytes = 0`; a null `buf` for `stdio_write`; the driver state at address 2,
which is not open (`fd = -1`); and the open driver state at address 1 with
`nbytes = 0`. -/
theorem stdio_validation_first_witness :
    stdio_read 0 world0 0 100 8 0 5000 = some (-1, { world0 with errno := EINVAL }) ∧
    stdio_write 0 world0 1 0 3 = some (-1, { world0 with errno := EINVAL }) ∧
    stdio_read 0 world0 2 100 8 4 5000 = some (-1, { world0 with errno := EBADF }) ∧
    stdio_write 0 world0 2 200 0 = some (-1, { world0 with errno := EBADF }) ∧
    stdio_read 0 world0 1 100 8 0 5000 = some (0, world0) ∧
    stdio_write 0 world0 1 200 0 = some (0, world0) :=
  ⟨(stdio_validation_first 0 world0 0 100 8 0 5000).1 rfl,
   (stdio_validation_first 0 world0 1 0 8 3 5000).2.1 (Or.inr rfl),
   (stdio_validation_first 0 world0 2 100 8 4 5000).2.2.1 (by decide) (by decide),
   (stdio_validation_first 0 world0 2 200 8 0 5000).2.2.2.1 (by decide) (by decide) (by decide),
   (stdio_validation_first 0 world0 1 100 8 0 5000).2.2.2.2.1 (by decide) (by decide) rfl,
   (stdio_validation_first 0 world0 1 200 8 0 5000).2.2.2.2.2 (by decide) (by decide) (by decide)
     rfl⟩

end GPX
